import Mathlib

/-!
Shallow embedding of the log parsing and aggregation pipeline of
`Логи_ДВА_интерфейс20.py` (web-portal access-log analytics).

Strings are modelled as Lean `String` / `List Char`; Python's `str` helpers
(`strip`, `replace`, `split`, `isdigit`, `int`, `join`, `count`) are embedded
as explicit list functions below.  Python dictionaries built by insertion are
modelled either as override functions (`dictLookup`) or as insertion-ordered
association lists (the `defaultdict` matrices), matching the iteration order
of CPython dicts.  `datetime.datetime.strptime(·, "%Y-%m-%d %H:%M:%S")` is
modelled after CPython's `_strptime` regex (including the 1-or-2-digit
numeric fields and the date-validity check of the `datetime` constructor,
restricted to ASCII digits).  Fallible operations return `Option`; `none`
models an exception reaching the enclosing `try`.
-/

/-! ### Python string primitives -/

/-- Whitespace stripped by Python's `str.strip()` (ASCII portion). -/
def pyWS (c : Char) : Bool :=
  c = ' ' || c = '\t' || c = '\n' || c = '\r' || c = '\x0b' || c = '\x0c'

/-- ASCII decimal digit (models `str.isdigit` / the `\d` of `_strptime`). -/
def isDigitChar (c : Char) : Bool := 48 ≤ c.toNat && c.toNat ≤ 57

def digitVal (c : Char) : Nat := c.toNat - 48

/-- `s.strip(chars)`: drop the characters satisfying `p` from both ends. -/
def stripChars (p : Char → Bool) (s : List Char) : List Char :=
  ((s.dropWhile p).reverse.dropWhile p).reverse

/-- `s.strip()` with no argument. -/
def pyStrip (s : List Char) : List Char := stripChars pyWS s

/-- `s.replace(pat, "")`: remove all non-overlapping occurrences of `pat`,
scanning left to right (fuel-driven; fuel `s.length` always suffices for a
nonempty `pat`). -/
def replaceDropAux (pat : List Char) : Nat → List Char → List Char
  | 0, _ => []
  | _, [] => []
  | fuel + 1, c :: rest =>
    if pat.isPrefixOf (c :: rest) then
      replaceDropAux pat fuel ((c :: rest).drop pat.length)
    else c :: replaceDropAux pat fuel rest

def replaceDrop (pat s : List Char) : List Char := replaceDropAux pat s.length s

/-- The part of `s` before and after the first occurrence of `sep`
(`s.split(sep, 1)`); `none` when `sep` does not occur (where the Python
two-variable unpacking raises `ValueError`). -/
def splitFirst (sep : List Char) : List Char → Option (List Char × List Char)
  | [] => if sep = [] then some ([], []) else none
  | c :: rest =>
    if sep.isPrefixOf (c :: rest) then some ([], (c :: rest).drop sep.length)
    else (splitFirst sep rest).map (fun q => (c :: q.1, q.2))

/-- `s.split(sep)` for nonempty `sep` (fuel-driven; `s.length + 1` suffices). -/
def splitAllAux (sep : List Char) : Nat → List Char → List (List Char)
  | 0, s => [s]
  | fuel + 1, s =>
    match splitFirst sep s with
    | none => [s]
    | some q => q.1 :: splitAllAux sep fuel q.2

def splitAll (sep s : List Char) : List (List Char) := splitAllAux sep (s.length + 1) s

/-- `sep.join(pieces)`. -/
def joinSep (sep : List Char) : List (List Char) → List Char
  | [] => []
  | [x] => x
  | x :: y :: rest => x ++ sep ++ joinSep sep (y :: rest)

/-! ### Timestamp parsing (`datetime.strptime` with `"%Y-%m-%d %H:%M:%S"`) -/

structure Timestamp where
  year : Nat
  month : Nat
  day : Nat
  hour : Nat
  minute : Nat
  second : Nat
  deriving DecidableEq

/-- `%m`: regex `1[0-2] | 0[1-9] | [1-9]` (CPython `_strptime`). -/
def parseMonthTok : List Char → Option (Nat × List Char)
  | c1 :: c2 :: rest =>
    if isDigitChar c1 ∧ isDigitChar c2 ∧
        ((digitVal c1 = 1 ∧ digitVal c2 ≤ 2) ∨ (digitVal c1 = 0 ∧ 1 ≤ digitVal c2)) then
      some (digitVal c1 * 10 + digitVal c2, rest)
    else if isDigitChar c1 ∧ 1 ≤ digitVal c1 then some (digitVal c1, c2 :: rest)
    else none
  | [c1] => if isDigitChar c1 ∧ 1 ≤ digitVal c1 then some (digitVal c1, []) else none
  | [] => none

/-- `%d`: regex `3[01] | [12]\d | 0[1-9] | [1-9]`. -/
def parseDayTok : List Char → Option (Nat × List Char)
  | c1 :: c2 :: rest =>
    if isDigitChar c1 ∧ isDigitChar c2 ∧
        ((digitVal c1 = 3 ∧ digitVal c2 ≤ 1) ∨ (1 ≤ digitVal c1 ∧ digitVal c1 ≤ 2) ∨
          (digitVal c1 = 0 ∧ 1 ≤ digitVal c2)) then
      some (digitVal c1 * 10 + digitVal c2, rest)
    else if isDigitChar c1 ∧ 1 ≤ digitVal c1 then some (digitVal c1, c2 :: rest)
    else none
  | [c1] => if isDigitChar c1 ∧ 1 ≤ digitVal c1 then some (digitVal c1, []) else none
  | [] => none

/-- `%H`: regex `2[0-3] | [0-1]\d | \d`. -/
def parseHourTok : List Char → Option (Nat × List Char)
  | c1 :: c2 :: rest =>
    if isDigitChar c1 ∧ isDigitChar c2 ∧
        ((digitVal c1 = 2 ∧ digitVal c2 ≤ 3) ∨ digitVal c1 ≤ 1) then
      some (digitVal c1 * 10 + digitVal c2, rest)
    else if isDigitChar c1 then some (digitVal c1, c2 :: rest)
    else none
  | [c1] => if isDigitChar c1 then some (digitVal c1, []) else none
  | [] => none

/-- `%M` and `%S`: regex `[0-5]\d | \d`. -/
def parseMSTok : List Char → Option (Nat × List Char)
  | c1 :: c2 :: rest =>
    if isDigitChar c1 ∧ isDigitChar c2 ∧ digitVal c1 ≤ 5 then
      some (digitVal c1 * 10 + digitVal c2, rest)
    else if isDigitChar c1 then some (digitVal c1, c2 :: rest)
    else none
  | [c1] => if isDigitChar c1 then some (digitVal c1, []) else none
  | [] => none

def isLeap (y : Nat) : Bool := (y % 4 = 0 && y % 100 ≠ 0) || y % 400 = 0

def daysInMonth (y m : Nat) : Nat :=
  if m = 2 then (if isLeap y then 29 else 28)
  else if m = 4 ∨ m = 6 ∨ m = 9 ∨ m = 11 then 30
  else 31

/-- `datetime.strptime(s, "%Y-%m-%d %H:%M:%S")`: `%Y` is exactly four digits;
the literal space matches one or more whitespace characters (CPython turns
format whitespace into `\s+`); no unconverted data may remain; finally the
`datetime` constructor validates the calendar date (year ≥ 1, day within the
month). -/
def parseTimestamp (s : List Char) : Option Timestamp :=
  match s with
  | a :: b :: c :: d :: rest0 =>
    if isDigitChar a ∧ isDigitChar b ∧ isDigitChar c ∧ isDigitChar d then
      match rest0 with
      | '-' :: r1 =>
        match parseMonthTok r1 with
        | some (mo, r2) =>
          match r2 with
          | '-' :: r3 =>
            match parseDayTok r3 with
            | some (dy, r4) =>
              match r4 with
              | w :: r5pre =>
                if pyWS w then
                  match parseHourTok (r5pre.dropWhile pyWS) with
                  | some (h, r6) =>
                    match r6 with
                    | ':' :: r7 =>
                      match parseMSTok r7 with
                      | some (mi, r8) =>
                        match r8 with
                        | ':' :: r9 =>
                          match parseMSTok r9 with
                          | some (se, r10) =>
                            if r10 = [] ∧
                                1 ≤ ((digitVal a * 10 + digitVal b) * 10 + digitVal c) * 10
                                      + digitVal d ∧
                                dy ≤ daysInMonth
                                  (((digitVal a * 10 + digitVal b) * 10 + digitVal c) * 10
                                    + digitVal d) mo then
                              some ⟨((digitVal a * 10 + digitVal b) * 10 + digitVal c) * 10
                                      + digitVal d, mo, dy, h, mi, se⟩
                            else none
                          | none => none
                        | _ => none
                      | none => none
                    | _ => none
                  | none => none
                else none
              | [] => none
            | none => none
          | _ => none
        | none => none
      | _ => none
    else none
  | _ => none

/-! ### The line parser (`parse_log_entry`) -/

def quoteChar : Char := Char.ofNat 39

def sepDash : List Char := " - ".data

def wrapOpen : List Char := "('".data

def wrapClose : List Char := "')".data

/-- `log_line.strip().replace("('", "").replace("')", "")`. -/
def cleanLine (logLine : String) : List Char :=
  replaceDrop wrapClose (replaceDrop wrapOpen (pyStrip logLine.data))

/-- `time_part.split(',')[0]`. -/
def beforeComma (s : List Char) : List Char :=
  match splitFirst [','] s with
  | none => s
  | some q => q.1

/-- The key/value pairs collected from `data_part.split(", '")`: chunks
without a colon are skipped; the key is stripped of spaces and quotes, the
value of whitespace and then quotes. -/
def fieldPairs (dataPart : List Char) : List (List Char × List Char) :=
  (splitAll ", '".data dataPart).filterMap (fun item =>
    if item.contains ':' then
      match splitFirst [':'] item with
      | some q =>
        some (stripChars (fun c => c = ' ' || c = quoteChar) q.1,
          stripChars (fun c => c = quoteChar) (pyStrip q.2))
      | none => none
    else none)

/-- The Python dict built by inserting the pairs in order: a later duplicate
key overrides an earlier one. -/
def dictLookup (items : List (List Char × List Char)) : List Char → Option (List Char) :=
  items.foldl (fun acc kv => fun q => if q = kv.1 then some kv.2 else acc q) (fun _ => none)

/-- `fields.get(key, 'unknown')`. -/
def getField (items : List (List Char × List Char)) (key : String) : String :=
  match dictLookup items key.data with
  | some v => String.mk v
  | none => "unknown"

structure LogEntry where
  timestamp : Timestamp
  client_ip : String
  client_hostname : String
  server : String
  event : String
  project : String
  login : String
  org_unit : String
  fullname : String
  deriving DecidableEq

/-- `parse_log_entry`: `none` models the `except` branch returning `None`
(missing `" - "` separator, or `strptime` failure on the part before the
first comma). -/
def parse_log_entry (logLine : String) : Option LogEntry :=
  match splitFirst sepDash (cleanLine logLine) with
  | none => none
  | some td =>
    match parseTimestamp (beforeComma td.1) with
    | none => none
    | some ts =>
      some { timestamp := ts
             client_ip := getField (fieldPairs td.2) "Client_IP"
             client_hostname := getField (fieldPairs td.2) "Client_Hostname"
             server := getField (fieldPairs td.2) "Server"
             event := getField (fieldPairs td.2) "Event"
             project := getField (fieldPairs td.2) "Project"
             login := getField (fieldPairs td.2) "Логин"
             org_unit := getField (fieldPairs td.2) "Орг_уровень_5"
             fullname := getField (fieldPairs td.2) "ФИО" }

/-! ### Record normalisation (`process_logs`) -/

structure Date where
  year : Nat
  month : Nat
  day : Nat
  deriving DecidableEq

def Timestamp.dateOf (ts : Timestamp) : Date := ⟨ts.year, ts.month, ts.day⟩

structure ParsedLog where
  entry : LogEntry
  date : Date
  deriving DecidableEq

/-- `process_logs`: parse every raw line, keep the successes in order, attach
`entry['date'] = entry['timestamp'].date()`. -/
def process_logs (rawLogs : List String) : List ParsedLog :=
  rawLogs.filterMap (fun line => (parse_log_entry line).map (fun e => ⟨e, e.timestamp.dateOf⟩))

/-! ### Unit attribution (`get_departments`, `assign_departments_to_logs`) -/

def get_departments : List String :=
  ["Управление 1", "Управление 2", "Управление 3",
   "Управление 4", "Управление 5", "Управление 6"]

def departments : List String := get_departments

/-- Inclusive codepoint ranges of the characters accepted by Python's
`str.isdigit` (Unicode `Numeric_Type = Decimal` or `Digit`), enumerated from
CPython's own character database. -/
def digitRanges : List (Nat × Nat) :=
  [(48, 57), (178, 179), (185, 185), (1632, 1641),
   (1776, 1785), (1984, 1993), (2406, 2415), (2534, 2543),
   (2662, 2671), (2790, 2799), (2918, 2927), (3046, 3055),
   (3174, 3183), (3302, 3311), (3430, 3439), (3558, 3567),
   (3664, 3673), (3792, 3801), (3872, 3881), (4160, 4169),
   (4240, 4249), (4969, 4977), (6112, 6121), (6160, 6169),
   (6470, 6479), (6608, 6618), (6784, 6793), (6800, 6809),
   (6992, 7001), (7088, 7097), (7232, 7241), (7248, 7257),
   (8304, 8304), (8308, 8313), (8320, 8329), (9312, 9320),
   (9332, 9340), (9352, 9360), (9450, 9450), (9461, 9469),
   (9471, 9471), (10102, 10110), (10112, 10120), (10122, 10130),
   (42528, 42537), (43216, 43225), (43264, 43273), (43472, 43481),
   (43504, 43513), (43600, 43609), (44016, 44025), (65296, 65305),
   (66720, 66729), (68160, 68163), (68912, 68921), (69216, 69224),
   (69714, 69722), (69734, 69743), (69872, 69881), (69942, 69951),
   (70096, 70105), (70384, 70393), (70736, 70745), (70864, 70873),
   (71248, 71257), (71360, 71369), (71472, 71481), (71904, 71913),
   (72016, 72025), (72784, 72793), (73040, 73049), (73120, 73129),
   (92768, 92777), (92864, 92873), (93008, 93017), (120782, 120831),
   (123200, 123209), (123632, 123641), (125264, 125273), (127232, 127242),
   (130032, 130041)]

/-- Inclusive codepoint ranges of the Unicode decimal digits accepted by
`int()` (`Numeric_Type = Decimal`), enumerated from CPython; every range is
a 0..9 run, so the decimal value of a codepoint is its offset from the
range start.  `str.isdigit` accepts strictly more characters (e.g. U+00B2
SUPERSCRIPT TWO), on which `int()` raises `ValueError`. -/
def decimalRanges : List (Nat × Nat) :=
  [(48, 57), (1632, 1641), (1776, 1785), (1984, 1993),
   (2406, 2415), (2534, 2543), (2662, 2671), (2790, 2799),
   (2918, 2927), (3046, 3055), (3174, 3183), (3302, 3311),
   (3430, 3439), (3558, 3567), (3664, 3673), (3792, 3801),
   (3872, 3881), (4160, 4169), (4240, 4249), (6112, 6121),
   (6160, 6169), (6470, 6479), (6608, 6617), (6784, 6793),
   (6800, 6809), (6992, 7001), (7088, 7097), (7232, 7241),
   (7248, 7257), (42528, 42537), (43216, 43225), (43264, 43273),
   (43472, 43481), (43504, 43513), (43600, 43609), (44016, 44025),
   (65296, 65305), (66720, 66729), (68912, 68921), (69734, 69743),
   (69872, 69881), (69942, 69951), (70096, 70105), (70384, 70393),
   (70736, 70745), (70864, 70873), (71248, 71257), (71360, 71369),
   (71472, 71481), (71904, 71913), (72016, 72025), (72784, 72793),
   (73040, 73049), (73120, 73129), (92768, 92777), (92864, 92873),
   (93008, 93017), (120782, 120791), (120792, 120801), (120802, 120811),
   (120812, 120821), (120822, 120831), (123200, 123209), (123632, 123641),
   (125264, 125273), (130032, 130041)]

def isDigitCodepoint (n : Nat) : Bool :=
  digitRanges.any (fun r => r.1 ≤ n && n ≤ r.2)

/-- Single-character `str.isdigit`. -/
def pyIsDigitChar (c : Char) : Bool := isDigitCodepoint c.toNat

/-- The decimal value `int()` assigns to a codepoint, `none` when the
character is not a Unicode decimal digit (where `int` raises). -/
def decimalValOfCodepoint (n : Nat) : Option Nat :=
  match decimalRanges.find? (fun r => r.1 ≤ n && n ≤ r.2) with
  | some r => some (n - r.1)
  | none => none

def decimalValC (c : Char) : Option Nat := decimalValOfCodepoint c.toNat

/-- `octet.isdigit()`: nonempty and every character of `Numeric_Type`
`Decimal` or `Digit`. -/
def pyIsDigitStr (s : List Char) : Bool := !s.isEmpty && s.all pyIsDigitChar

/-- Nonempty and every character a Unicode decimal digit (the condition for
`int` to succeed on the token shapes reachable here). -/
def pyIsDecimalStr (s : List Char) : Bool :=
  !s.isEmpty && s.all (fun c => (decimalValC c).isSome)

def natOfDecimal (s : List Char) : Nat :=
  s.foldl (fun a c => a * 10 + (decimalValC c).getD 0) 0

/-- `int(s)` on the token shapes reachable here (pieces of `clean_ip`, which
are nonempty strings of `isdigit` characters): it succeeds iff every
character is a Unicode decimal digit; `none` models the `ValueError` raised
on digit-class non-decimal characters such as U+00B2.  (CPython ≥ 3.11's
configurable global digit-count limit is a denial-of-service guard outside
`int`'s conversion semantics and is not modelled.) -/
def pyInt (s : List Char) : Option Nat :=
  if pyIsDecimalStr s then some (natOfDecimal s) else none

/-- `[octet for octet in ip.split('.') if octet.isdigit()][:4]`. -/
def octetsOf (ip : List Char) : List (List Char) :=
  ((splitAll ['.'] ip).filter pyIsDigitStr).take 4

/-- `clean_ip = '.'.join(...)`. -/
def cleanIp (ip : List Char) : List Char := joinSep ['.'] (octetsOf ip)

/-- `departments[n % len(departments)]`. -/
def deptIndex (n : Nat) : String := departments.getD (n % departments.length) ""

/-- The body of the `try` block of `assign_departments_to_logs` for one
record; `none` models an exception falling through to the `except` branch. -/
def tryAssign (ip : List Char) : Option String :=
  if (cleanIp ip).count '.' = 3 then
    (pyInt ((splitAll ['.'] (cleanIp ip)).getLastD [])).map deptIndex
  else some (deptIndex 0)

/-- Attribution of one record: the `try` body, with `departments[0]` as the
`except` fallback. -/
def assignDept (ip : List Char) : String := (tryAssign ip).getD (departments.getD 0 "")

structure DeptLog where
  plog : ParsedLog
  department : String
  deriving DecidableEq

def assign_departments_to_logs (logs : List ParsedLog) : List DeptLog :=
  logs.map (fun lg => ⟨lg, assignDept lg.entry.client_ip.data⟩)

def DeptLog.date (lg : DeptLog) : Date := lg.plog.date

def DeptLog.fullname (lg : DeptLog) : String := lg.plog.entry.fullname

/-! ### Date order and the date-range filter -/

def dateLt (a b : Date) : Prop :=
  a.year < b.year ∨ (a.year = b.year ∧
    (a.month < b.month ∨ (a.month = b.month ∧ a.day < b.day)))

def dateLe (a b : Date) : Prop :=
  a.year < b.year ∨ (a.year = b.year ∧
    (a.month < b.month ∨ (a.month = b.month ∧ a.day ≤ b.day)))

instance (a b : Date) : Decidable (dateLt a b) := by unfold dateLt; infer_instance

instance (a b : Date) : Decidable (dateLe a b) := by unfold dateLe; infer_instance

/-- `[log for log in parsed_logs if start_date <= log['date'] <= end_date]`. -/
def filterRange (logs : List DeptLog) (s e : Date) : List DeptLog :=
  logs.filter (fun lg => decide (dateLe s lg.date) && decide (dateLe lg.date e))

/-! ### Period resolver (`get_month_range`, `relativedelta`) -/

def nextMonth (p : Nat × Nat) : Nat × Nat :=
  if p.2 ≥ 12 then (p.1 + 1, 1) else (p.1, p.2 + 1)

def monthLE (p q : Nat × Nat) : Prop := p.1 < q.1 ∨ (p.1 = q.1 ∧ p.2 ≤ q.2)

instance (p q : Nat × Nat) : Decidable (monthLE p q) := by unfold monthLE; infer_instance

/-- The `while current <= end_date` loop of `get_month_range`, on
(year, month) pairs of firsts-of-month (fuel-driven; the fuel passed by
`get_month_range` covers every iteration of the Python loop). -/
def monthRangeAux (ey em : Nat) : Nat → Nat × Nat → List (Nat × Nat)
  | 0, _ => []
  | fuel + 1, p =>
    if monthLE p (ey, em) then p :: monthRangeAux ey em fuel (nextMonth p) else []

/-- First-occurrence deduplication (used to model `set`/dict-key behaviour). -/
def dedupFirstAux [DecidableEq α] (seen : List α) : List α → List α
  | [] => []
  | a :: rest =>
    if a ∈ seen then dedupFirstAux seen rest else a :: dedupFirstAux (a :: seen) rest

def dedupFirst [DecidableEq α] (l : List α) : List α := dedupFirstAux [] l

def insertSorted (x : Nat × Nat) : List (Nat × Nat) → List (Nat × Nat)
  | [] => [x]
  | y :: rest => if monthLE x y then x :: y :: rest else y :: insertSorted x rest

/-- `sorted(·, key=lambda x: (x[0], x[1]))`. -/
def sortMonths : List (Nat × Nat) → List (Nat × Nat)
  | [] => []
  | x :: rest => insertSorted x (sortMonths rest)

/-- `get_month_range(start, end)`: enumerate months first-of-month by
first-of-month, then `sorted(list(set(months)))`. -/
def get_month_range (s e : Date) : List (Nat × Nat) :=
  sortMonths (dedupFirst (monthRangeAux e.year e.month
    (e.year * 12 + e.month + 2 - (s.year * 12 + s.month)) (s.year, s.month)))

/-- `d + relativedelta(months=k)`: month index arithmetic with the day
clamped to the target month's length (negative indices cannot arise from the
calls made here; `Int.toNat` makes the function total). -/
def addMonths (d : Date) (k : Int) : Date :=
  ⟨((d.year : Int) * 12 + (d.month : Int) - 1 + k).toNat / 12,
   ((d.year : Int) * 12 + (d.month : Int) - 1 + k).toNat % 12 + 1,
   min d.day (daysInMonth (((d.year : Int) * 12 + (d.month : Int) - 1 + k).toNat / 12)
     (((d.year : Int) * 12 + (d.month : Int) - 1 + k).toNat % 12 + 1))⟩

/-- `relativedelta.__init__`'s adjustment loop, `dt1 >= dt2` case:
`while dt1 < dtm: months -= 1`. -/
def adjustDown (e s : Date) : Nat → Int → Int
  | 0, m => m
  | fuel + 1, m =>
    if dateLt e (addMonths s m) then adjustDown e s fuel (m - 1) else m

/-- `relativedelta.__init__`'s adjustment loop, `dt1 < dt2` case:
`while dt1 > dtm: months += 1`. -/
def adjustUp (e s : Date) : Nat → Int → Int
  | 0, m => m
  | fuel + 1, m =>
    if dateLt (addMonths s m) e then adjustUp e s fuel (m + 1) else m

/-- `(dt1.year - dt2.year) * 12 + (dt1.month - dt2.month)` for
`relativedelta(e, s)`. -/
def rawMonthSpan (s e : Date) : Int :=
  ((e.year : Int) - (s.year : Int)) * 12 + ((e.month : Int) - (s.month : Int))

/-- The signed month count of `relativedelta(e, s)` after the adjustment
loop (the loop runs at most once on real dates; the fuel is generous). -/
def adjustedMonths (s e : Date) : Int :=
  if dateLt e s then adjustUp e s ((rawMonthSpan s e).natAbs + 24) (rawMonthSpan s e)
  else adjustDown e s ((rawMonthSpan s e).natAbs + 24) (rawMonthSpan s e)

/-- `relativedelta._set_months`: normalise a signed month count into
`(years, months)` with `|months| ≤ 11`. -/
def setMonths (m : Int) : Int × Int :=
  if 11 < m.natAbs then
    ((m.natAbs / 12 : Nat) * (if m < 0 then -1 else 1),
     (m.natAbs % 12 : Nat) * (if m < 0 then -1 else 1))
  else (0, m)

/-- `delta.years * 12 + delta.months` for `delta = relativedelta(e, s)`. -/
def totalMonths (s e : Date) : Int :=
  (setMonths (adjustedMonths s e)).1 * 12 + (setMonths (adjustedMonths s e)).2

inductive Freq
  | month
  | year
  deriving DecidableEq

/-- The granularity choice: `total_months <= 12` → monthly, else yearly. -/
def freqOf (s e : Date) : Freq := if totalMonths s e ≤ 12 then Freq.month else Freq.year

/-! ### Period labels -/

def pad2 (n : Nat) : String := if n < 10 then "0" ++ toString n else toString n

/-- `date.strftime("%Y-%m")` / `f"{year}-{month:02d}"`. -/
def fmtYM (y m : Nat) : String := toString y ++ "-" ++ pad2 m

/-- `date.strftime("%Y")`. -/
def fmtY (y : Nat) : String := toString y

/-- The period label of a `(year, month)` bucket: monthly granularity always
uses `year-month`; yearly granularity uses the bare year except for months of
the end year up to the end month. -/
def periodLabelYM (freq : Freq) (endD : Date) (y m : Nat) : String :=
  match freq with
  | Freq.month => fmtYM y m
  | Freq.year => if y = endD.year ∧ m ≤ endD.month then fmtYM y m else fmtY y

def monthKey (lg : DeptLog) : Nat × Nat := (lg.date.year, lg.date.month)

/-- The label assigned to one log record in `prepare_chart_data` (both
branches only read `date.year` and `date.month`). -/
def labelOf (freq : Freq) (endD : Date) (lg : DeptLog) : String :=
  periodLabelYM freq endD lg.date.year lg.date.month

/-! ### Chart data (`prepare_chart_data`) -/

/-- `data = defaultdict(lambda: defaultdict(int))` filled by
`data[dept][period] += 1` over the filtered logs. -/
def chartData (logs : List DeptLog) (freq : Freq) (endD : Date) : String → String → Nat :=
  logs.foldl
    (fun acc lg => fun dq pq =>
      if dq = lg.department ∧ pq = labelOf freq endD lg then acc dq pq + 1 else acc dq pq)
    (fun _ _ => 0)

/-- The keys of `data[dept]` in insertion order (first occurrence among the
logs of that department). -/
def chartPeriods (logs : List DeptLog) (freq : Freq) (endD : Date) (d : String) : List String :=
  dedupFirst ((logs.filter (fun lg => lg.department == d)).map (labelOf freq endD))

/-- `prepare_chart_data`: the `(Управление, Период, Посещения)` rows of the
data frame, and the chosen granularity. -/
def prepare_chart_data (logs : List DeptLog) (startD endD : Date) :
    List (String × String × Nat) × Freq :=
  (List.flatten (departments.map (fun d =>
      (chartPeriods logs (freqOf startD endD) endD d).map
        (fun p => (d, p, chartData logs (freqOf startD endD) endD d p)))),
   freqOf startD endD)

/-! ### Aggregation matrices (`dept_matrix`, `employee_matrix`) -/

structure Stats where
  total : Nat
  months : List ((Nat × Nat) × Nat)
  deriving DecidableEq

/-- `months[k] += 1` on a `defaultdict(int)` kept as an insertion-ordered
association list. -/
def bumpAssoc (l : List ((Nat × Nat) × Nat)) (k : Nat × Nat) : List ((Nat × Nat) × Nat) :=
  if l.any (fun q => q.1 == k) then
    l.map (fun q => if q.1 == k then (q.1, q.2 + 1) else q)
  else l ++ [(k, 1)]

def bumpStat (st : Stats) (k : Nat × Nat) : Stats := ⟨st.total + 1, bumpAssoc st.months k⟩

def initDeptMatrix : List (String × Stats) := departments.map (fun d => (d, ⟨0, []⟩))

/-- One iteration of the `dept_matrix` loop: a department missing from the
matrix raises `KeyError` before any update and the record is skipped
(`except KeyError: pass`). -/
def deptStep (m : List (String × Stats)) (lg : DeptLog) : List (String × Stats) :=
  if m.any (fun q => q.1 == lg.department) then
    m.map (fun q => if q.1 == lg.department then (q.1, bumpStat q.2 (monthKey lg)) else q)
  else m

/-- `dept_matrix` after the counting loop of `main`. -/
def deptMatrix (logs : List DeptLog) : List (String × Stats) :=
  logs.foldl deptStep initDeptMatrix

/-- One iteration of the `employee_matrix` loop: records with the `"unknown"`
full name are skipped; a new employee is appended (defaultdict insertion
order). -/
def empStep (m : List (String × Stats)) (lg : DeptLog) : List (String × Stats) :=
  if lg.fullname == "unknown" then m
  else if m.any (fun q => q.1 == lg.fullname) then
    m.map (fun q => if q.1 == lg.fullname then (q.1, bumpStat q.2 (monthKey lg)) else q)
  else m ++ [(lg.fullname, ⟨1, [(monthKey lg, 1)]⟩)]

def employeeMatrix (logs : List DeptLog) : List (String × Stats) :=
  logs.foldl empStep []

/-- `prepare_employee_data`: one row is appended per raw `(year, month)`
bucket of each employee, labelled through the granularity-aware projection. -/
def prepare_employee_data (employeeLogs : List (String × Stats)) (startD endD : Date) :
    List (String × String × Nat) × Freq :=
  (List.flatten (employeeLogs.map (fun q =>
      q.2.months.map (fun bc =>
        (q.1, periodLabelYM (freqOf startD endD) endD bc.1.1 bc.1.2, bc.2)))),
   freqOf startD endD)

def sumVals (l : List ((Nat × Nat) × Nat)) : Nat := (l.map (fun q => q.2)).sum

/-! ### Shared concrete examples -/

def lineEx : String :=
  "2024-01-15 09:00:00,123 - ('Client_IP:'10.0.0.7', 'ФИО:'Ivanov I.I.'')"

def lineEx2 : String := "2024-02-03 10:11:12 - Server:'srv1'"

def badLineEx : String := "malformed line without separator"

def entryEx : LogEntry :=
  { timestamp := ⟨2024, 1, 15, 9, 0, 0⟩, client_ip := "10.0.0.7",
    client_hostname := "unknown", server := "unknown", event := "unknown",
    project := "unknown", login := "unknown", org_unit := "unknown",
    fullname := "Ivanov I.I." }

/-- The timestamp bounds guaranteed by `strptime` plus the `datetime`
constructor. -/
def validTimestamp (ts : Timestamp) : Prop :=
  1 ≤ ts.year ∧ ts.year ≤ 9999 ∧ 1 ≤ ts.month ∧ ts.month ≤ 12 ∧ 1 ≤ ts.day ∧
  ts.day ≤ daysInMonth ts.year ts.month ∧ ts.hour ≤ 23 ∧ ts.minute ≤ 59 ∧ ts.second ≤ 59

/-- The effect of the `dept_matrix` counting loop on the row of one
department (derived form used by the characterisation lemmas). -/
def perDeptFold (d : String) (logs : List DeptLog) (st0 : Stats) : Stats :=
  logs.foldl (fun acc lg => if lg.department = d then bumpStat acc (monthKey lg) else acc) st0

/-- The `(year, month)` keys of the records of one department, in input
order. -/
def deptKeys (logs : List DeptLog) (d : String) : List (Nat × Nat) :=
  (logs.filter (fun lg => lg.department == d)).map monthKey

/-- A concrete record for the refutation of the employee-side merging
claim. -/
def cexEntry (y m d : Nat) : LogEntry :=
  { timestamp := ⟨y, m, d, 9, 0, 0⟩, client_ip := "10.0.0.1",
    client_hostname := "unknown", server := "unknown", event := "unknown",
    project := "unknown", login := "unknown", org_unit := "unknown",
    fullname := "E" }

/-- Two visits of employee "E" in two different months of 2022. -/
def cexLogs : List DeptLog :=
  [⟨⟨cexEntry 2022 1 10, ⟨2022, 1, 10⟩⟩, "Управление 1"⟩,
   ⟨⟨cexEntry 2022 2 10, ⟨2022, 2, 10⟩⟩, "Управление 1"⟩]

/-! ### Generic helper lemmas -/

theorem statsExt (a b : Stats) (h1 : a.total = b.total) (h2 : a.months = b.months) : a = b := by
  cases a; cases b; simp_all

theorem mem_dedupFirstAux [DecidableEq α] (seen l : List α) (a : α) :
    a ∈ dedupFirstAux seen l ↔ a ∈ l ∧ a ∉ seen := by
  induction l generalizing seen with
  | nil => simp [dedupFirstAux]
  | cons b rest ih =>
    simp only [dedupFirstAux]
    split
    · rename_i hb
      rw [ih]; simp only [List.mem_cons]
      constructor
      · exact fun h => ⟨Or.inr h.1, h.2⟩
      · rintro ⟨rfl | h1, h2⟩
        · exact absurd hb h2
        · exact ⟨h1, h2⟩
    · rename_i hb
      simp only [List.mem_cons, ih, List.mem_cons]
      constructor
      · rintro (rfl | ⟨h1, h2⟩)
        · exact ⟨Or.inl rfl, hb⟩
        · refine ⟨Or.inr h1, fun hs => h2 (Or.inr hs)⟩
      · rintro ⟨rfl | h1, h2⟩
        · exact Or.inl rfl
        · by_cases hab : a = b
          · exact Or.inl hab
          · exact Or.inr ⟨h1, by simp [hab, h2]⟩

theorem mem_dedupFirst [DecidableEq α] (l : List α) (a : α) :
    a ∈ dedupFirst l ↔ a ∈ l := by
  rw [dedupFirst, mem_dedupFirstAux]; simp

theorem nodup_dedupFirstAux [DecidableEq α] (seen l : List α) :
    (dedupFirstAux seen l).Nodup := by
  induction l generalizing seen with
  | nil => simp [dedupFirstAux]
  | cons b rest ih =>
    simp only [dedupFirstAux]
    split
    · exact ih seen
    · refine List.nodup_cons.mpr ⟨?_, ih (b :: seen)⟩
      rw [mem_dedupFirstAux]
      rintro ⟨-, h2⟩
      exact h2 (List.mem_cons_self b seen)

theorem nodup_dedupFirst [DecidableEq α] (l : List α) : (dedupFirst l).Nodup :=
  nodup_dedupFirstAux [] l

theorem dedupFirstAux_append_singleton [DecidableEq α] (seen l : List α) (b : α) :
    dedupFirstAux seen (l ++ [b]) =
      dedupFirstAux seen l ++ (if b ∈ seen ∨ b ∈ l then [] else [b]) := by
  induction l generalizing seen with
  | nil =>
    by_cases hb : b ∈ seen <;> simp [dedupFirstAux, hb]
  | cons c rest ih =>
    simp only [List.cons_append, dedupFirstAux, List.append_eq]
    by_cases hc : c ∈ seen
    · rw [if_pos hc, if_pos hc, ih]
      have hcong : (b ∈ seen ∨ b ∈ rest) ↔ (b ∈ seen ∨ b ∈ c :: rest) := by
        simp only [List.mem_cons]
        constructor
        · rintro (h | h)
          · exact Or.inl h
          · exact Or.inr (Or.inr h)
        · rintro (h | rfl | h)
          · exact Or.inl h
          · exact Or.inl hc
          · exact Or.inr h
      rw [if_congr hcong rfl rfl]
    · rw [if_neg hc, if_neg hc, ih]
      have hcong : (b ∈ c :: seen ∨ b ∈ rest) ↔ (b ∈ seen ∨ b ∈ c :: rest) := by
        simp only [List.mem_cons]
        tauto
      rw [if_congr hcong rfl rfl]
      simp

theorem dedupFirst_append_singleton [DecidableEq α] (l : List α) (b : α) :
    dedupFirst (l ++ [b]) = dedupFirst l ++ (if b ∈ l then [] else [b]) := by
  rw [dedupFirst, dedupFirstAux_append_singleton, dedupFirst]
  congr 1
  simp

theorem toFinset_dedupFirst [DecidableEq α] (l : List α) :
    (dedupFirst l).toFinset = l.toFinset := by
  ext a; simp [List.mem_toFinset, mem_dedupFirst]

/-- `List.count` does not depend on the (lawful) `BEq` instance. -/
theorem count_lawful_eq [DecidableEq α] [BEq α] [LawfulBEq α] (l : List α) (a : α) :
    l.count a = @List.count α instBEqOfDecidableEq a l := by
  have h1 := @List.count_eq_countP α _ a l
  have h2 := @List.count_eq_countP α instBEqOfDecidableEq a l
  rw [h1, h2]
  apply List.countP_congr
  intro x _
  constructor
  · intro hx
    have hxa : x = a := by simpa using hx
    simp [hxa]
  · intro hx
    have hxa : x = a := by simpa using hx
    simp [hxa]

/-- Summing the multiplicities of the distinct elements recovers the length. -/
theorem sum_counts_dedupFirst [DecidableEq α] [BEq α] [LawfulBEq α] (L : List α) :
    ((dedupFirst L).map (fun b => L.count b)).sum = L.length := by
  rw [List.map_congr_left (fun b _ => count_lawful_eq L b)]
  calc ((dedupFirst L).map (fun b => @List.count α instBEqOfDecidableEq b L)).sum
      = (dedupFirst L).toFinset.sum (fun b => @List.count α instBEqOfDecidableEq b L) :=
        (List.sum_toFinset _ (nodup_dedupFirst L)).symm
    _ = L.toFinset.sum (fun b => @List.count α instBEqOfDecidableEq b L) := by
        rw [toFinset_dedupFirst]
    _ = L.length := List.sum_toFinset_count_eq_length L

/-- Counting a fiber of a list equals summing the multiplicities of the
distinct elements of that fiber. -/
theorem filter_length_eq_sum_counts [DecidableEq α] [BEq α] [LawfulBEq α]
    (K : List α) (q : α → Bool) :
    (K.filter q).length = (((dedupFirst K).filter q).map (fun b => K.count b)).sum := by
  rw [List.map_congr_left (fun b _ => count_lawful_eq K b)]
  have h1 : ((dedupFirst K).filter q).Nodup := (nodup_dedupFirst K).filter q
  have h2 : ((dedupFirst K).filter q).toFinset = K.toFinset.filter (q ·) := by
    ext b
    simp [List.mem_toFinset, List.mem_filter, mem_dedupFirst]
  calc (K.filter q).length
      = ∑ b in (K.filter q).toFinset, @List.count α instBEqOfDecidableEq b (K.filter q) :=
        (List.sum_toFinset_count_eq_length _).symm
    _ = ∑ b in K.toFinset.filter (q ·), @List.count α instBEqOfDecidableEq b (K.filter q) := by
        rw [List.toFinset_filter]
    _ = ∑ b in K.toFinset.filter (q ·), @List.count α instBEqOfDecidableEq b K := by
        refine Finset.sum_congr rfl (fun b hb => ?_)
        exact @List.count_filter α instBEqOfDecidableEq _ q b K (Finset.mem_filter.mp hb).2
    _ = (((dedupFirst K).filter q).map (fun b => @List.count α instBEqOfDecidableEq b K)).sum := by
        rw [← h2, List.sum_toFinset _ h1]

theorem digitVal_le_nine {c : Char} (h : isDigitChar c = true) : digitVal c ≤ 9 := by
  simp only [isDigitChar, Bool.and_eq_true, decide_eq_true_eq] at h
  simp only [digitVal]
  omega

/-! ### C4: malformed lines fail alone, the batch survives in order -/

/-- C4: a line whose cleaned text lacks the literal `" - "` separator, or
whose portion before the first comma of the time part is not a
`YYYY-MM-DD HH:MM:SS` timestamp, parses to a failure for that line only:
batch processing still returns the records of every other well-formed line,
never aborts, and preserves the relative input order of the source lines. -/
theorem C4_malformed_line_skipped (bad : String)
    (h : splitFirst sepDash (cleanLine bad) = none ∨
      ∀ td, splitFirst sepDash (cleanLine bad) = some td →
        parseTimestamp (beforeComma td.1) = none) :
    parse_log_entry bad = none ∧
    ∀ pre post : List String,
      process_logs (pre ++ bad :: post) = process_logs pre ++ process_logs post := by
  have hp : parse_log_entry bad = none := by
    rcases h with h | h
    · simp [parse_log_entry, h]
    · cases hs : splitFirst sepDash (cleanLine bad) with
      | none => simp [parse_log_entry, hs]
      | some td => simp [parse_log_entry, hs, h td hs]
  refine ⟨hp, fun pre post => ?_⟩
  unfold process_logs
  rw [List.filterMap_append]
  simp [List.filterMap_cons, hp]

/-- Witness for C4 at a concrete batch: a separator-free line in the middle
of two well-formed lines is skipped and the rest survive in order. -/
theorem C4_malformed_line_skipped_witness :
    parse_log_entry badLineEx = none ∧
    process_logs ([lineEx] ++ badLineEx :: [lineEx2]) =
      process_logs [lineEx] ++ process_logs [lineEx2] :=
  ⟨(C4_malformed_line_skipped badLineEx (Or.inl (by decide))).1,
   (C4_malformed_line_skipped badLineEx (Or.inl (by decide))).2 [lineEx] [lineEx2]⟩

/-- `years * 12 + months` of `_set_months(m)` reconstructs `m`. -/
theorem setMonths_reconstruct (m : Int) : (setMonths m).1 * 12 + (setMonths m).2 = m := by
  unfold setMonths
  split
  · rename_i hgt
    have h2 := Nat.div_add_mod m.natAbs 12
    by_cases hm : m < 0
    · have habs : ((m.natAbs : Nat) : Int) = -m := by
        rw [← Int.natAbs_neg]
        exact Int.natAbs_of_nonneg (by omega)
      simp only [if_pos hm]
      generalize hq : m.natAbs / 12 = q at *
      generalize hr : m.natAbs % 12 = r at *
      generalize hn : m.natAbs = n at *
      omega
    · have habs : ((m.natAbs : Nat) : Int) = m := Int.natAbs_of_nonneg (by omega)
      simp only [if_neg hm, mul_one]
      generalize hq : m.natAbs / 12 = q at *
      generalize hr : m.natAbs % 12 = r at *
      generalize hn : m.natAbs = n at *
      omega
  · simp

/-! ### C3: granularity rule and yearly labelling -/

/-- C3: the period resolution computes the whole-month span as
`years*12 + months` of the relativedelta (the normalisation round-trips), it
chooses monthly granularity exactly when that span is at most 12 (a 10-month
range is monthly, a 25-month range is yearly), and in the yearly case a
record dated in the end year with month at most the end month gets the finer
year-month label while every other record gets the bare-year label. -/
theorem C3_period_resolution :
    (∀ s e : Date, totalMonths s e = adjustedMonths s e) ∧
    (∀ s e : Date, totalMonths s e ≤ 12 → freqOf s e = Freq.month) ∧
    (∀ s e : Date, 12 < totalMonths s e → freqOf s e = Freq.year) ∧
    totalMonths ⟨2024, 1, 15⟩ ⟨2024, 11, 15⟩ = 10 ∧
    freqOf ⟨2024, 1, 15⟩ ⟨2024, 11, 15⟩ = Freq.month ∧
    totalMonths ⟨2022, 1, 15⟩ ⟨2024, 2, 15⟩ = 25 ∧
    freqOf ⟨2022, 1, 15⟩ ⟨2024, 2, 15⟩ = Freq.year ∧
    (∀ (e : Date) (lg : DeptLog),
      labelOf Freq.year e lg =
        if lg.date.year = e.year ∧ lg.date.month ≤ e.month
        then fmtYM lg.date.year lg.date.month
        else fmtY lg.date.year) := by
  refine ⟨?_, ?_, ?_, by decide, by decide, by decide, by decide, fun e lg => rfl⟩
  · intro s e
    unfold totalMonths
    exact setMonths_reconstruct (adjustedMonths s e)
  · intro s e h
    simp [freqOf, h]
  · intro s e h
    have : ¬ totalMonths s e ≤ 12 := by omega
    simp [freqOf, this]

/-- Witness for C3 at concrete dates: the hypothesis-bearing granularity
implications applied to the 10-month and 25-month example ranges. -/
theorem C3_period_resolution_witness :
    freqOf ⟨2024, 1, 15⟩ ⟨2024, 11, 15⟩ = Freq.month ∧
    freqOf ⟨2022, 1, 15⟩ ⟨2024, 2, 15⟩ = Freq.year :=
  ⟨C3_period_resolution.2.1 ⟨2024, 1, 15⟩ ⟨2024, 11, 15⟩ (by decide),
   C3_period_resolution.2.2.1 ⟨2022, 1, 15⟩ ⟨2024, 2, 15⟩ (by decide)⟩

/-! ### String lemmas for unit attribution -/

theorem isPrefixOf_single (c a : Char) (rest : List Char) :
    [c].isPrefixOf (a :: rest) = (c == a) := by
  simp [List.isPrefixOf]

theorem splitFirst_single_none {c : Char} {s : List Char} (h : c ∉ s) :
    splitFirst [c] s = none := by
  induction s with
  | nil => simp [splitFirst]
  | cons a rest ih =>
    rw [List.mem_cons] at h
    push_neg at h
    simp [splitFirst, isPrefixOf_single, h.1, ih h.2]

theorem splitFirst_single_found {c : Char} {p : List Char} (rest : List Char) (h : c ∉ p) :
    splitFirst [c] (p ++ c :: rest) = some (p, rest) := by
  induction p with
  | nil => simp [splitFirst, isPrefixOf_single]
  | cons a p ih =>
    rw [List.mem_cons] at h
    push_neg at h
    simp [splitFirst, isPrefixOf_single, h.1, ih h.2]

theorem length_le_joinSep {c : Char} :
    ∀ ps : List (List Char), ps.length ≤ (joinSep [c] ps).length + 1 := by
  intro ps
  induction ps with
  | nil => simp
  | cons x ps ih =>
    cases ps with
    | nil => simp [joinSep]
    | cons y rest =>
      have hjoin : joinSep [c] (x :: y :: rest) = x ++ c :: joinSep [c] (y :: rest) := by
        simp [joinSep]
      rw [hjoin]
      simp only [List.length_cons, List.length_append] at *
      omega

theorem splitAllAux_joinSep {c : Char} :
    ∀ (ps : List (List Char)) (fuel : Nat), (∀ p ∈ ps, c ∉ p) → ps ≠ [] →
      ps.length ≤ fuel + 1 → splitAllAux [c] fuel (joinSep [c] ps) = ps := by
  intro ps
  induction ps with
  | nil => intro fuel _ h2 _; exact absurd rfl h2
  | cons x ps ih =>
    intro fuel h1 _ h3
    have hx : c ∉ x := h1 x (List.mem_cons_self _ _)
    cases ps with
    | nil =>
      cases fuel with
      | zero => simp [joinSep, splitAllAux]
      | succ f => simp [joinSep, splitAllAux, splitFirst_single_none hx]
    | cons y rest =>
      cases fuel with
      | zero => simp at h3
      | succ f =>
        have hjoin : joinSep [c] (x :: y :: rest) = x ++ c :: joinSep [c] (y :: rest) := by
          simp [joinSep]
        rw [hjoin]
        simp only [splitAllAux]
        rw [splitFirst_single_found _ hx]
        refine congrArg (fun t => x :: t) (ih f (fun p hp => h1 p (List.mem_cons_of_mem _ hp))
          (by simp) ?_)
        simp only [List.length_cons] at h3 ⊢
        omega

theorem splitAll_joinSep {c : Char} (ps : List (List Char))
    (h1 : ∀ p ∈ ps, c ∉ p) (h2 : ps ≠ []) :
    splitAll [c] (joinSep [c] ps) = ps := by
  refine splitAllAux_joinSep ps _ h1 h2 ?_
  have := length_le_joinSep (c := c) ps
  omega

theorem count_joinSep {c : Char} :
    ∀ ps : List (List Char), ps ≠ [] → (∀ p ∈ ps, c ∉ p) →
      (joinSep [c] ps).count c = ps.length - 1 := by
  intro ps
  induction ps with
  | nil => intro h _; exact absurd rfl h
  | cons x ps ih =>
    intro _ h1
    have hx : c ∉ x := h1 x (List.mem_cons_self _ _)
    cases ps with
    | nil => simp [joinSep, List.count_eq_zero.mpr hx]
    | cons y rest =>
      have hjoin : joinSep [c] (x :: y :: rest) = x ++ c :: joinSep [c] (y :: rest) := by
        simp [joinSep]
      rw [hjoin, List.count_append, List.count_eq_zero.mpr hx, List.count_cons_self,
        ih (by simp) (fun p hp => h1 p (List.mem_cons_of_mem _ hp))]
      simp

theorem octetsOf_digit {ip p : List Char} (h : p ∈ octetsOf ip) : pyIsDigitStr p = true := by
  unfold octetsOf at h
  exact (List.mem_filter.mp (List.take_subset 4 _ h)).2

theorem digitStr_no_dot {p : List Char} (h : pyIsDigitStr p = true) : '.' ∉ p := by
  simp only [pyIsDigitStr, Bool.and_eq_true, List.all_eq_true] at h
  intro hm
  exact absurd (h.2 _ hm) (by decide)

theorem octetsOf_length_le (ip : List Char) : (octetsOf ip).length ≤ 4 := by
  unfold octetsOf
  simp [List.length_take]

theorem count_cleanIp (ip : List Char) :
    (cleanIp ip).count '.' = 3 ↔ (octetsOf ip).length = 4 := by
  have hdots : ∀ p ∈ octetsOf ip, '.' ∉ p :=
    fun p hp => digitStr_no_dot (octetsOf_digit hp)
  constructor
  · intro h
    have hnn : octetsOf ip ≠ [] := by
      intro hh
      rw [show cleanIp ip = joinSep ['.'] (octetsOf ip) from rfl, hh] at h
      simp [joinSep] at h
    have hcount := count_joinSep (octetsOf ip) hnn hdots
    rw [show cleanIp ip = joinSep ['.'] (octetsOf ip) from rfl, hcount] at h
    have hle := octetsOf_length_le ip
    have hpos : 0 < (octetsOf ip).length := List.length_pos.mpr hnn
    omega
  · intro h
    have hnn : octetsOf ip ≠ [] := by intro hh; rw [hh] at h; simp at h
    rw [show cleanIp ip = joinSep ['.'] (octetsOf ip) from rfl,
      count_joinSep (octetsOf ip) hnn hdots, h]

theorem getLastD_mem {α : Type _} (l : List α) (d : α) (h : l ≠ []) : l.getLastD d ∈ l := by
  induction l generalizing d with
  | nil => exact absurd rfl h
  | cons a rest ih =>
    rw [List.getLastD_cons]
    cases rest with
    | nil => simp [List.getLastD]
    | cons b r2 => exact List.mem_cons_of_mem a (ih a (by simp))

theorem deptIndex_mem (n : Nat) : deptIndex n ∈ departments := by
  unfold deptIndex
  have h61 : departments.length = 6 := rfl
  have h : n % departments.length < departments.length := Nat.mod_lt _ (by decide)
  rw [h61] at h ⊢
  have h6 : n % 6 = 0 ∨ n % 6 = 1 ∨ n % 6 = 2 ∨ n % 6 = 3 ∨ n % 6 = 4 ∨ n % 6 = 5 := by
    omega
  rcases h6 with h6 | h6 | h6 | h6 | h6 | h6 <;> rw [h6] <;> decide

theorem splitFirst_decomp {sep s : List Char} {q : List Char × List Char}
    (h : splitFirst sep s = some q) : s = q.1 ++ sep ++ q.2 := by
  induction s generalizing q with
  | nil =>
    simp only [splitFirst] at h
    split at h
    · rename_i hsep
      cases h
      simp [hsep]
    · exact Option.noConfusion h
  | cons c rest ih =>
    simp only [splitFirst] at h
    split at h
    · rename_i hpre
      cases h
      obtain ⟨t, ht⟩ := List.isPrefixOf_iff_prefix.mp hpre
      show c :: rest = [] ++ sep ++ (c :: rest).drop sep.length
      rw [List.nil_append, ← ht, List.drop_left]
    · cases hq : splitFirst sep rest with
      | none => rw [hq] at h; exact Option.noConfusion h
      | some q' =>
        rw [hq] at h
        simp only [Option.map_some', Option.some.injEq] at h
        subst h
        have hr := ih hq
        simp only [List.cons_append, List.append_assoc] at hr ⊢
        rw [← hr]

theorem splitAllAux_chars {sep : List Char} :
    ∀ (fuel : Nat) (s p : List Char), p ∈ splitAllAux sep fuel s → ∀ x ∈ p, x ∈ s := by
  intro fuel
  induction fuel with
  | zero =>
    intro s p hp x hx
    simp only [splitAllAux, List.mem_singleton] at hp
    subst hp
    exact hx
  | succ f ih =>
    intro s p hp x hx
    simp only [splitAllAux] at hp
    cases hq : splitFirst sep s with
    | none =>
      rw [hq] at hp
      simp only [List.mem_singleton] at hp
      subst hp
      exact hx
    | some q =>
      rw [hq] at hp
      have hdec := splitFirst_decomp hq
      simp only [List.mem_cons] at hp
      rcases hp with rfl | hp
      · rw [hdec]
        exact List.mem_append_left _ (List.mem_append_left _ hx)
      · rw [hdec]
        exact List.mem_append_right _ (ih q.2 p hp x hx)

theorem splitAll_chars {sep s p : List Char} (hp : p ∈ splitAll sep s) :
    ∀ x ∈ p, x ∈ s :=
  splitAllAux_chars _ s p hp

set_option maxRecDepth 4000 in
theorem ascii_digit_decimal :
    ∀ n : Nat, n < 128 → isDigitCodepoint n = true →
      (decimalValOfCodepoint n).isSome = true := by
  decide

/-- The closed form of the `try` body of the unit attributor: when fewer than
four numeric octets were collected it takes the `last_octet = 0` path, and
with exactly four it succeeds precisely when `int` accepts the last collected
octet, yielding the unit at that index. -/
theorem tryAssign_eq (ip : List Char) :
    tryAssign ip = if (octetsOf ip).length = 4
      then (pyInt ((octetsOf ip).getLastD [])).map deptIndex
      else some (deptIndex 0) := by
  unfold tryAssign
  by_cases h4 : (octetsOf ip).length = 4
  · rw [if_pos ((count_cleanIp ip).mpr h4), if_pos h4]
    have hnn : octetsOf ip ≠ [] := by intro hh; rw [hh] at h4; simp at h4
    have hsplit : splitAll ['.'] (cleanIp ip) = octetsOf ip :=
      splitAll_joinSep _ (fun p hp => digitStr_no_dot (octetsOf_digit hp)) hnn
    rw [hsplit]
  · rw [if_neg (fun hc => h4 ((count_cleanIp ip).mp hc)), if_neg h4]

theorem assignDept_mem (ip : List Char) : assignDept ip ∈ departments := by
  rw [assignDept, tryAssign_eq ip]
  by_cases h4 : (octetsOf ip).length = 4
  · rw [if_pos h4]
    cases hp : pyInt ((octetsOf ip).getLastD []) with
    | none => decide
    | some n => exact deptIndex_mem n
  · rw [if_neg h4]
    exact deptIndex_mem 0

/-! ### C5 and C9: unit attribution -/

/-- C5: attribution collects at most the first four `isdigit` dot-separated
octets of the client address, converts the last one with `int` when exactly
four were found (index 0 otherwise), selects the unit at index
`last mod len(departments)` of the fixed ordered 6-unit list, and falls back
to the first unit when the conversion raises; the spec's example line with
address `10.0.0.7` parses to full name "Ivanov I.I." and is attributed to the
second unit (7 mod 6 = 1), the Arabic-Indic last octet `٣` to the fourth,
and the digit-class non-decimal `²` to the fallback first unit. -/
theorem C5_unit_attribution :
    (∀ ip : List Char,
      assignDept ip = if (octetsOf ip).length = 4
        then (match pyInt ((octetsOf ip).getLastD []) with
              | some n => deptIndex n
              | none => departments.getD 0 "")
        else deptIndex 0) ∧
    (∀ ip : List Char, tryAssign ip = none → assignDept ip = departments.getD 0 "") ∧
    parse_log_entry lineEx = some entryEx ∧
    entryEx.client_ip = "10.0.0.7" ∧
    entryEx.fullname = "Ivanov I.I." ∧
    assignDept "10.0.0.7".data = "Управление 2" ∧
    departments.getD 1 "" = "Управление 2" ∧
    assignDept "1.2.3.٣".data = "Управление 4" ∧
    assignDept "1.2.3.²".data = "Управление 1" := by
  refine ⟨fun ip => ?_, fun ip h => by unfold assignDept; rw [h]; rfl, by decide, by decide,
    by decide, by decide, by decide, by decide, by decide⟩
  rw [assignDept, tryAssign_eq]
  by_cases h4 : (octetsOf ip).length = 4
  · rw [if_pos h4, if_pos h4]
    cases hp : pyInt ((octetsOf ip).getLastD []) with
    | none => rfl
    | some n => rfl
  · rw [if_neg h4, if_neg h4]
    rfl

/-- Witness for C5: the failure-fallback clause discharged at a concrete
address whose fourth octet passes `isdigit` but is rejected by `int`. -/
theorem C5_unit_attribution_witness :
    assignDept "1.2.3.²".data = departments.getD 0 "" :=
  C5_unit_attribution.2.1 "1.2.3.²".data (by decide)

/-- C9 counterexample: the `except` fallback of the unit attributor is
reachable. The address `1.2.3.²` yields four octets all passing `isdigit`
(U+00B2 SUPERSCRIPT TWO has Unicode `Numeric_Type=Digit`), so the `try` body
calls `int("²")`, which raises `ValueError` because `²` is not a decimal
digit, and the handler assigns `departments[0]`. -/
theorem C9_attribution_fallback_counterexample :
    pyIsDigitStr "²".data = true ∧
    pyInt "²".data = none ∧
    octetsOf "1.2.3.²".data = ["1".data, "2".data, "3".data, "²".data] ∧
    tryAssign "1.2.3.²".data = none ∧
    assignDept "1.2.3.²".data = "Управление 1" :=
  ⟨by decide, by decide, by decide, by decide, by decide⟩

/-- C9 (amended): the `except` fallback of the unit attributor is reached
exactly when `int` fails on the collected last octet, which requires a
digit-class non-decimal character; whenever that octet is made of decimal
digits — in particular for every pure-ASCII address, including the "unknown"
default — the `try` body yields a unit without exception, fewer than four
numeric octets deterministically take the `last_octet = 0` path, and in every
case (fallback included) the assigned unit is an element of the fixed 6-unit
list, so attribution is total. -/
theorem C9_attribution_fallback_amended :
    (∀ ip : List Char, assignDept ip ∈ departments) ∧
    (∀ ip : List Char, (octetsOf ip).length ≠ 4 → tryAssign ip = some (deptIndex 0)) ∧
    (∀ ip : List Char, pyIsDecimalStr ((octetsOf ip).getLastD []) = true →
      (tryAssign ip).isSome = true) ∧
    (∀ ip : List Char, ip.all (fun c => decide (c.toNat < 128)) = true →
      (tryAssign ip).isSome = true) ∧
    tryAssign "unknown".data = some (deptIndex 0) := by
  have hdecSome : ∀ ip : List Char,
      pyIsDecimalStr ((octetsOf ip).getLastD []) = true →
      (tryAssign ip).isSome = true := by
    intro ip hdec
    rw [tryAssign_eq ip]
    by_cases h4 : (octetsOf ip).length = 4
    · rw [if_pos h4]
      have hpy : pyInt ((octetsOf ip).getLastD []) =
          some (natOfDecimal ((octetsOf ip).getLastD [])) := by
        unfold pyInt
        rw [if_pos hdec]
      rw [hpy]
      rfl
    · rw [if_neg h4]
      rfl
  refine ⟨fun ip => assignDept_mem ip,
    fun ip h => by rw [tryAssign_eq ip, if_neg h],
    hdecSome, fun ip hascii => ?_, by decide⟩
  by_cases h4 : (octetsOf ip).length = 4
  · have hnn : octetsOf ip ≠ [] := by intro hh; rw [hh] at h4; simp at h4
    have hlast := getLastD_mem (octetsOf ip) [] hnn
    have hdig := octetsOf_digit hlast
    have hsub : ∀ x ∈ (octetsOf ip).getLastD [], x ∈ ip := by
      intro x hx
      have hmem2 : (octetsOf ip).getLastD [] ∈ splitAll ['.'] ip :=
        List.mem_of_mem_filter (List.take_subset 4 _ hlast)
      exact splitAll_chars hmem2 x hx
    have hdec : pyIsDecimalStr ((octetsOf ip).getLastD []) = true := by
      simp only [pyIsDigitStr, Bool.and_eq_true, List.all_eq_true] at hdig
      simp only [pyIsDecimalStr, Bool.and_eq_true, List.all_eq_true]
      refine ⟨hdig.1, fun c hc => ?_⟩
      have hd := hdig.2 c hc
      have ha : c.toNat < 128 := by
        have hm := hsub c hc
        have h2 := List.all_eq_true.mp hascii c hm
        simpa using h2
      exact ascii_digit_decimal c.toNat ha hd
    exact hdecSome ip hdec
  · rw [tryAssign_eq ip, if_neg h4]
    rfl

/-- Witness for C9 (amended) at concrete addresses. -/
theorem C9_attribution_fallback_amended_witness :
    tryAssign "abc".data = some (deptIndex 0) ∧
    (tryAssign "10.0.0.7".data).isSome = true ∧
    (tryAssign "1.2.3.4".data).isSome = true ∧
    assignDept "unknown".data ∈ departments :=
  ⟨C9_attribution_fallback_amended.2.1 "abc".data (by decide),
   C9_attribution_fallback_amended.2.2.1 "10.0.0.7".data (by decide),
   C9_attribution_fallback_amended.2.2.2.1 "1.2.3.4".data (by decide),
   C9_attribution_fallback_amended.1 "unknown".data⟩

/-! ### C6: successful parses are total records -/

theorem parseMonthTok_bounds {s r : List Char} {m : Nat}
    (h : parseMonthTok s = some (m, r)) : 1 ≤ m ∧ m ≤ 12 := by
  cases s with
  | nil => exact Option.noConfusion h
  | cons c1 s1 =>
    cases s1 with
    | nil =>
      simp only [parseMonthTok] at h
      split at h
      · rename_i hc
        simp only [Option.some.injEq, Prod.mk.injEq] at h
        have b1 := digitVal_le_nine hc.1
        omega
      · exact Option.noConfusion h
    | cons c2 rest =>
      simp only [parseMonthTok] at h
      split at h
      · rename_i hc
        simp only [Option.some.injEq, Prod.mk.injEq] at h
        have b1 := digitVal_le_nine hc.1
        have b2 := digitVal_le_nine hc.2.1
        obtain ⟨-, -, hcase⟩ := hc
        omega
      · split at h
        · rename_i hc
          simp only [Option.some.injEq, Prod.mk.injEq] at h
          have b1 := digitVal_le_nine hc.1
          obtain ⟨-, h2⟩ := hc
          omega
        · exact Option.noConfusion h

theorem parseDayTok_bounds {s r : List Char} {m : Nat}
    (h : parseDayTok s = some (m, r)) : 1 ≤ m ∧ m ≤ 31 := by
  cases s with
  | nil => exact Option.noConfusion h
  | cons c1 s1 =>
    cases s1 with
    | nil =>
      simp only [parseDayTok] at h
      split at h
      · rename_i hc
        simp only [Option.some.injEq, Prod.mk.injEq] at h
        have b1 := digitVal_le_nine hc.1
        obtain ⟨-, h2⟩ := hc
        omega
      · exact Option.noConfusion h
    | cons c2 rest =>
      simp only [parseDayTok] at h
      split at h
      · rename_i hc
        simp only [Option.some.injEq, Prod.mk.injEq] at h
        have b1 := digitVal_le_nine hc.1
        have b2 := digitVal_le_nine hc.2.1
        obtain ⟨-, -, hcase⟩ := hc
        omega
      · split at h
        · rename_i hc
          simp only [Option.some.injEq, Prod.mk.injEq] at h
          have b1 := digitVal_le_nine hc.1
          obtain ⟨-, h2⟩ := hc
          omega
        · exact Option.noConfusion h

theorem parseHourTok_bounds {s r : List Char} {m : Nat}
    (h : parseHourTok s = some (m, r)) : m ≤ 23 := by
  cases s with
  | nil => exact Option.noConfusion h
  | cons c1 s1 =>
    cases s1 with
    | nil =>
      simp only [parseHourTok] at h
      split at h
      · rename_i hc
        simp only [Option.some.injEq, Prod.mk.injEq] at h
        have b1 := digitVal_le_nine hc
        omega
      · exact Option.noConfusion h
    | cons c2 rest =>
      simp only [parseHourTok] at h
      split at h
      · rename_i hc
        simp only [Option.some.injEq, Prod.mk.injEq] at h
        have b1 := digitVal_le_nine hc.1
        have b2 := digitVal_le_nine hc.2.1
        obtain ⟨-, -, hcase⟩ := hc
        omega
      · split at h
        · rename_i hc
          simp only [Option.some.injEq, Prod.mk.injEq] at h
          have b1 := digitVal_le_nine hc
          omega
        · exact Option.noConfusion h

theorem parseMSTok_bounds {s r : List Char} {m : Nat}
    (h : parseMSTok s = some (m, r)) : m ≤ 59 := by
  cases s with
  | nil => exact Option.noConfusion h
  | cons c1 s1 =>
    cases s1 with
    | nil =>
      simp only [parseMSTok] at h
      split at h
      · rename_i hc
        simp only [Option.some.injEq, Prod.mk.injEq] at h
        have b1 := digitVal_le_nine hc
        omega
      · exact Option.noConfusion h
    | cons c2 rest =>
      simp only [parseMSTok] at h
      split at h
      · rename_i hc
        simp only [Option.some.injEq, Prod.mk.injEq] at h
        have b1 := digitVal_le_nine hc.1
        have b2 := digitVal_le_nine hc.2.1
        obtain ⟨-, -, hcase⟩ := hc
        omega
      · split at h
        · rename_i hc
          simp only [Option.some.injEq, Prod.mk.injEq] at h
          have b1 := digitVal_le_nine hc
          omega
        · exact Option.noConfusion h

theorem parseTimestamp_valid {s : List Char} {ts : Timestamp}
    (h : parseTimestamp s = some ts) : validTimestamp ts := by
  unfold parseTimestamp at h
  split at h
  case h_2 => exact Option.noConfusion h
  case h_1 a b c d rest0 =>
    split at h
    case isFalse => exact Option.noConfusion h
    case isTrue hdigits =>
      split at h
      case h_2 => exact Option.noConfusion h
      case h_1 r1 =>
        split at h
        case h_2 => exact Option.noConfusion h
        case h_1 mo r2 hmo =>
          split at h
          case h_2 => exact Option.noConfusion h
          case h_1 r3 =>
            split at h
            case h_2 => exact Option.noConfusion h
            case h_1 dy r4 hdy =>
              split at h
              case h_2 => exact Option.noConfusion h
              case h_1 w r5pre =>
                split at h
                case isFalse => exact Option.noConfusion h
                case isTrue hw =>
                  split at h
                  case h_2 => exact Option.noConfusion h
                  case h_1 hh r6 hhour =>
                    split at h
                    case h_2 => exact Option.noConfusion h
                    case h_1 r7 =>
                      split at h
                      case h_2 => exact Option.noConfusion h
                      case h_1 mi r8 hmin =>
                        split at h
                        case h_2 => exact Option.noConfusion h
                        case h_1 r9 =>
                          split at h
                          case h_2 => exact Option.noConfusion h
                          case h_1 se r10 hsec =>
                            split at h
                            case isFalse => exact Option.noConfusion h
                            case isTrue hval =>
                              obtain ⟨-, hy1, hdays⟩ := hval
                              have hmo2 := parseMonthTok_bounds hmo
                              have hdy2 := parseDayTok_bounds hdy
                              have hh2 := parseHourTok_bounds hhour
                              have hmi2 := parseMSTok_bounds hmin
                              have hse2 := parseMSTok_bounds hsec
                              have ha := digitVal_le_nine hdigits.1
                              have hb := digitVal_le_nine hdigits.2.1
                              have hcc := digitVal_le_nine hdigits.2.2.1
                              have hd := digitVal_le_nine hdigits.2.2.2
                              cases h
                              simp only [validTimestamp]
                              exact ⟨hy1, by omega, hmo2.1, hmo2.2, hdy2.1, hdays,
                                hh2, hmi2, hse2⟩

/-- C6: whenever the parser succeeds it returns a total record: a valid
timestamp and all of the nine recognized fields populated, each with either
the value extracted from the line's field mapping or the "unknown" default;
no partial record is ever returned. -/
theorem C6_parse_total (line : String) (e : LogEntry)
    (h : parse_log_entry line = some e) :
    validTimestamp e.timestamp ∧
    ∃ td, splitFirst sepDash (cleanLine line) = some td ∧
      parseTimestamp (beforeComma td.1) = some e.timestamp ∧
      e.client_ip = getField (fieldPairs td.2) "Client_IP" ∧
      e.client_hostname = getField (fieldPairs td.2) "Client_Hostname" ∧
      e.server = getField (fieldPairs td.2) "Server" ∧
      e.event = getField (fieldPairs td.2) "Event" ∧
      e.project = getField (fieldPairs td.2) "Project" ∧
      e.login = getField (fieldPairs td.2) "Логин" ∧
      e.org_unit = getField (fieldPairs td.2) "Орг_уровень_5" ∧
      e.fullname = getField (fieldPairs td.2) "ФИО" ∧
      (∀ key : String, dictLookup (fieldPairs td.2) key.data = none →
        getField (fieldPairs td.2) key = "unknown") ∧
      (∀ (key : String) (v : List Char), dictLookup (fieldPairs td.2) key.data = some v →
        getField (fieldPairs td.2) key = String.mk v) := by
  unfold parse_log_entry at h
  split at h
  case h_1 => exact Option.noConfusion h
  case h_2 td hsplit =>
    split at h
    case h_1 => exact Option.noConfusion h
    case h_2 ts hts =>
      cases h
      refine ⟨parseTimestamp_valid hts, td, hsplit, hts, rfl, rfl, rfl, rfl, rfl, rfl, rfl, rfl,
        ?_, ?_⟩
      · intro key hk
        unfold getField
        rw [hk]
      · intro key v hk
        unfold getField
        rw [hk]

/-- Witness for C6: the spec's example line yields the fully populated
example record. -/
theorem C6_parse_total_witness :
    validTimestamp entryEx.timestamp ∧
    ∃ td, splitFirst sepDash (cleanLine lineEx) = some td ∧
      parseTimestamp (beforeComma td.1) = some entryEx.timestamp ∧
      entryEx.client_ip = getField (fieldPairs td.2) "Client_IP" ∧
      entryEx.client_hostname = getField (fieldPairs td.2) "Client_Hostname" ∧
      entryEx.server = getField (fieldPairs td.2) "Server" ∧
      entryEx.event = getField (fieldPairs td.2) "Event" ∧
      entryEx.project = getField (fieldPairs td.2) "Project" ∧
      entryEx.login = getField (fieldPairs td.2) "Логин" ∧
      entryEx.org_unit = getField (fieldPairs td.2) "Орг_уровень_5" ∧
      entryEx.fullname = getField (fieldPairs td.2) "ФИО" ∧
      (∀ key : String, dictLookup (fieldPairs td.2) key.data = none →
        getField (fieldPairs td.2) key = "unknown") ∧
      (∀ (key : String) (v : List Char), dictLookup (fieldPairs td.2) key.data = some v →
        getField (fieldPairs td.2) key = String.mk v) :=
  C6_parse_total lineEx entryEx (by decide)

/-! ### Characterisation of the `dept_matrix` fold -/

theorem deptStep_map (st : String → Stats) (lg : DeptLog) :
    deptStep (departments.map (fun d => (d, st d))) lg =
      departments.map (fun d =>
        (d, if lg.department = d then bumpStat (st d) (monthKey lg) else st d)) := by
  unfold deptStep
  by_cases hmem : lg.department ∈ departments
  · have hany : ((departments.map (fun d => (d, st d))).any
        (fun q => q.1 == lg.department)) = true := by
      refine List.any_eq_true.mpr ?_
      exact ⟨(lg.department, st lg.department), List.mem_map_of_mem _ hmem, by simp⟩
    rw [if_pos hany, List.map_map]
    apply List.map_congr_left
    intro d hd
    by_cases hdl : d = lg.department
    · subst hdl
      simp
    · simp [Function.comp, hdl, Ne.symm hdl]
  · have hany : ((departments.map (fun d => (d, st d))).any
        (fun q => q.1 == lg.department)) = false := by
      refine List.any_eq_false.mpr ?_
      intro q hq
      obtain ⟨d, hd, rfl⟩ := List.mem_map.mp hq
      simp only [beq_iff_eq]
      intro hdl
      exact hmem (hdl ▸ hd)
    rw [if_neg (by simp [hany])]
    apply List.map_congr_left
    intro d hd
    rw [if_neg (fun hh : lg.department = d => hmem (hh ▸ hd))]

theorem foldl_deptStep_char (logs : List DeptLog) :
    ∀ st : String → Stats,
      List.foldl deptStep (departments.map (fun d => (d, st d))) logs =
        departments.map (fun d => (d, perDeptFold d logs (st d))) := by
  induction logs with
  | nil => intro st; simp [perDeptFold]
  | cons lg rest ih =>
    intro st
    rw [List.foldl_cons, deptStep_map st lg,
      ih (fun d => if lg.department = d then bumpStat (st d) (monthKey lg) else st d)]
    rfl

theorem perDeptFold_total (d : String) (logs : List DeptLog) :
    ∀ st0 : Stats, (perDeptFold d logs st0).total =
      st0.total + (logs.filter (fun lg => lg.department == d)).length := by
  induction logs with
  | nil => intro st0; simp [perDeptFold]
  | cons lg rest ih =>
    intro st0
    simp only [perDeptFold, List.foldl_cons, List.filter_cons] at *
    by_cases h : lg.department = d
    · rw [if_pos h, ih (bumpStat st0 (monthKey lg))]
      simp only [bumpStat]
      have : (lg.department == d) = true := by simp [h]
      rw [this]
      simp
      omega
    · rw [if_neg h, ih st0]
      have : (lg.department == d) = false := by simp [h]
      rw [this]
      simp

theorem perDeptFold_months (d : String) (logs : List DeptLog) :
    ∀ st0 : Stats, (perDeptFold d logs st0).months =
      ((logs.filter (fun lg => lg.department == d)).map monthKey).foldl
        bumpAssoc st0.months := by
  induction logs with
  | nil => intro st0; simp [perDeptFold]
  | cons lg rest ih =>
    intro st0
    simp only [perDeptFold, List.foldl_cons, List.filter_cons] at *
    by_cases h : lg.department = d
    · rw [if_pos h, ih (bumpStat st0 (monthKey lg))]
      have hbeq : (lg.department == d) = true := by simp [h]
      rw [hbeq]
      simp [bumpStat]
    · rw [if_neg h, ih st0]
      have hbeq : (lg.department == d) = false := by simp [h]
      rw [hbeq]
      simp

theorem bumpAssoc_counts (P : List (Nat × Nat)) (k : Nat × Nat) :
    bumpAssoc ((dedupFirst P).map (fun b => (b, P.count b))) k =
      (dedupFirst (P ++ [k])).map (fun b => (b, (P ++ [k]).count b)) := by
  rw [dedupFirst_append_singleton]
  by_cases hk : k ∈ P
  · rw [if_pos hk, List.append_nil]
    unfold bumpAssoc
    have hany : (((dedupFirst P).map (fun b => (b, P.count b))).any
        (fun q => q.1 == k)) = true := by
      refine List.any_eq_true.mpr ?_
      exact ⟨(k, P.count k), List.mem_map_of_mem _ ((mem_dedupFirst P k).mpr hk), by simp⟩
    rw [if_pos hany, List.map_map]
    apply List.map_congr_left
    intro b hb
    by_cases hbk : b = k
    · subst hbk
      simp [List.count_append]
    · simp only [Function.comp]
      have hbeq : (b == k) = false := by simp [hbk]
      simp [hbeq, List.count_append, List.count_eq_zero.mpr (by simp [hbk] : b ∉ [k])]
  · rw [if_neg hk]
    unfold bumpAssoc
    have hany : (((dedupFirst P).map (fun b => (b, P.count b))).any
        (fun q => q.1 == k)) = false := by
      refine List.any_eq_false.mpr ?_
      intro q hq
      obtain ⟨b, hb, rfl⟩ := List.mem_map.mp hq
      simp only [beq_iff_eq]
      intro hbk
      exact hk (hbk ▸ (mem_dedupFirst P b).mp hb)
    rw [if_neg (by simp [hany]), List.map_append]
    congr 1
    · apply List.map_congr_left
      intro b hb
      have hbk : b ≠ k := fun hh => hk (hh ▸ (mem_dedupFirst P b).mp hb)
      rw [List.count_append, List.count_eq_zero.mpr (by simp [hbk] : b ∉ [k])]
      simp
    · rw [List.map_singleton, List.count_append, List.count_eq_zero.mpr hk]
      simp

theorem foldl_bumpAssoc_char (K : List (Nat × Nat)) :
    ∀ P : List (Nat × Nat),
      K.foldl bumpAssoc ((dedupFirst P).map (fun b => (b, P.count b))) =
        (dedupFirst (P ++ K)).map (fun b => (b, (P ++ K).count b)) := by
  induction K with
  | nil => intro P; simp
  | cons k K ih =>
    intro P
    rw [List.foldl_cons, bumpAssoc_counts, ih (P ++ [k])]
    simp

theorem foldl_bumpAssoc_nil (K : List (Nat × Nat)) :
    K.foldl bumpAssoc [] = (dedupFirst K).map (fun b => (b, K.count b)) := by
  have h := foldl_bumpAssoc_char K []
  simpa [dedupFirst, dedupFirstAux] using h

/-- The closed form of `dept_matrix`: one row per department in order, the
total counting that department's records and the bucket map holding the
multiplicity of each distinct `(year, month)` key in first-occurrence
order. -/
theorem deptMatrix_char (logs : List DeptLog) :
    deptMatrix logs = departments.map (fun d =>
      (d, ⟨(deptKeys logs d).length,
        (dedupFirst (deptKeys logs d)).map (fun b => (b, (deptKeys logs d).count b))⟩)) := by
  have h1 : deptMatrix logs = departments.map (fun d => (d, perDeptFold d logs ⟨0, []⟩)) :=
    foldl_deptStep_char logs (fun _ => ⟨0, []⟩)
  rw [h1]
  apply List.map_congr_left
  intro d hd
  have ht := perDeptFold_total d logs ⟨0, []⟩
  have hm := perDeptFold_months d logs ⟨0, []⟩
  refine congrArg (fun st => (d, st)) (statsExt _ _ ?_ ?_)
  · rw [ht]
    simp [deptKeys]
  · rw [hm]
    exact foldl_bumpAssoc_nil (deptKeys logs d)

/-! ### C2 and C7: sum law and fixed unit universe -/

theorem sumVals_counts (K : List (Nat × Nat)) :
    sumVals ((dedupFirst K).map (fun b => (b, K.count b))) = K.length := by
  unfold sumVals
  rw [List.map_map]
  have hcomp : ((fun q => (q : (Nat × Nat) × Nat).2) ∘ fun b => (b, K.count b))
      = fun b => K.count b := rfl
  rw [hcomp]
  exact sum_counts_dedupFirst K

theorem sum_map_add {α : Type _} (l : List α) (f g : α → Nat) :
    (l.map (fun a => f a + g a)).sum = (l.map f).sum + (l.map g).sum := by
  induction l with
  | nil => simp
  | cons a rest ih =>
    simp only [List.map_cons, List.sum_cons, ih]
    omega

theorem sum_map_indicator (ds : List String) (x : String) :
    (ds.map (fun d => if x = d then 1 else 0)).sum = ds.count x := by
  induction ds with
  | nil => simp
  | cons d rest ih =>
    simp only [List.map_cons, List.sum_cons, List.count_cons, ih]
    by_cases h : x = d
    · subst h
      simp
      omega
    · have hb : (d == x) = false := by simp [Ne.symm h]
      simp [h, hb]

theorem sum_filter_lengths (ds : List String) (hnd : ds.Nodup) (logs : List DeptLog)
    (hall : ∀ lg ∈ logs, lg.department ∈ ds) :
    (ds.map (fun d => (logs.filter (fun lg => lg.department == d)).length)).sum
      = logs.length := by
  induction logs with
  | nil => simp
  | cons lg rest ih =>
    have hmem : lg.department ∈ ds := hall lg (List.mem_cons_self _ _)
    have ihr := ih (fun x hx => hall x (List.mem_cons_of_mem _ hx))
    have hmap : ∀ d ∈ ds,
        ((lg :: rest).filter (fun x => x.department == d)).length
          = (rest.filter (fun x => x.department == d)).length
            + (if lg.department = d then 1 else 0) := by
      intro d _
      rw [List.filter_cons]
      by_cases h : lg.department = d
      · have hb : (lg.department == d) = true := by simp [h]
        simp [hb, h]
      · have hb : (lg.department == d) = false := by simp [h]
        simp [hb, h]
    rw [List.map_congr_left hmap, sum_map_add, ihr, sum_map_indicator,
      List.count_eq_one_of_mem hnd hmem]
    simp

/-- C2: for the successfully parsed, unit-attributed records filtered to a
date range, each unit's per-(year, month)-bucket counts sum to the unit's
total, and the totals across all units sum to the number of filtered
records. -/
theorem C2_sum_law (parsed : List ParsedLog) (s e : Date) :
    (∀ p ∈ deptMatrix (filterRange (assign_departments_to_logs parsed) s e),
        sumVals p.2.months = p.2.total) ∧
    ((deptMatrix (filterRange (assign_departments_to_logs parsed) s e)).map
        (fun p => p.2.total)).sum
      = (filterRange (assign_departments_to_logs parsed) s e).length := by
  constructor
  · intro p hp
    rw [deptMatrix_char] at hp
    obtain ⟨d, hd, rfl⟩ := List.mem_map.mp hp
    exact sumVals_counts (deptKeys (filterRange (assign_departments_to_logs parsed) s e) d)
  · rw [deptMatrix_char, List.map_map]
    have hlen : ∀ d ∈ departments,
        ((fun p => (p : String × Stats).2.total) ∘ fun d =>
          ((d, ⟨(deptKeys (filterRange (assign_departments_to_logs parsed) s e) d).length,
            (dedupFirst (deptKeys (filterRange (assign_departments_to_logs parsed) s e) d)).map
              (fun b => (b, (deptKeys (filterRange (assign_departments_to_logs parsed) s e) d).count
                b))⟩) : String × Stats)) d
          = ((filterRange (assign_departments_to_logs parsed) s e).filter
              (fun lg => lg.department == d)).length := by
      intro d _
      simp [deptKeys]
    rw [List.map_congr_left hlen]
    refine sum_filter_lengths departments (by decide) _ ?_
    intro lg hlg
    have h1 : lg ∈ assign_departments_to_logs parsed := List.mem_of_mem_filter hlg
    obtain ⟨pl, hpl, rfl⟩ := List.mem_map.mp h1
    exact assignDept_mem _

/-- Witness for C2: one example line, parsed, attributed and filtered to
2024; the Управление 2 row satisfies the per-unit sum law. -/
theorem C2_sum_law_witness :
    sumVals ((("Управление 2", (⟨1, [((2024, 1), 1)]⟩ : Stats)) : String × Stats)).2.months
      = ((("Управление 2", (⟨1, [((2024, 1), 1)]⟩ : Stats)) : String × Stats)).2.total :=
  (C2_sum_law (process_logs [lineEx]) ⟨2024, 1, 1⟩ ⟨2024, 12, 31⟩).1
    ("Управление 2", ⟨1, [((2024, 1), 1)]⟩) (by decide)

theorem deptMatrix_zero_row (logs : List DeptLog) (d : String) (hd : d ∈ departments)
    (hnone : ∀ lg ∈ logs, lg.department ≠ d) :
    (d, (⟨0, []⟩ : Stats)) ∈ deptMatrix logs := by
  rw [deptMatrix_char]
  have hK : deptKeys logs d = [] := by
    unfold deptKeys
    have hf : logs.filter (fun lg => lg.department == d) = [] := by
      rw [List.filter_eq_nil_iff]
      intro a ha
      simp [hnone a ha]
    rw [hf]
    rfl
  refine List.mem_map.mpr ⟨d, hd, ?_⟩
  rw [hK]
  rfl

/-- C7: for every input record list (the empty list included) the unit
matrix has exactly the six fixed units as row keys, initialized with total 0
and an empty bucket map before counting, so units with no matching records
still appear with total 0. -/
theorem C7_fixed_unit_universe (logs : List DeptLog) :
    (deptMatrix logs).map Prod.fst = departments ∧
    deptMatrix [] = departments.map (fun d => (d, (⟨0, []⟩ : Stats))) ∧
    (∀ d ∈ departments, (∀ lg ∈ logs, lg.department ≠ d) →
      (d, (⟨0, []⟩ : Stats)) ∈ deptMatrix logs) := by
  refine ⟨?_, rfl, fun d hd hnone => deptMatrix_zero_row logs d hd hnone⟩
  rw [deptMatrix_char, List.map_map]
  exact List.map_id departments

/-- Witness for C7: Управление 3 has no records among the example logs yet
appears as a zero row. -/
theorem C7_fixed_unit_universe_witness :
    ("Управление 3", (⟨0, []⟩ : Stats)) ∈ deptMatrix cexLogs :=
  (C7_fixed_unit_universe cexLogs).2.2 "Управление 3" (by decide) (by decide)

/-! ### C10 and C1: chart projections -/

theorem chartData_eq (logs : List DeptLog) (freq : Freq) (endD : Date) (d p : String) :
    chartData logs freq endD d p =
      (logs.filter (fun lg => lg.department == d && labelOf freq endD lg == p)).length := by
  have aux : ∀ (L : List DeptLog) (acc : String → String → Nat),
      (L.foldl (fun acc lg => fun dq pq =>
          if dq = lg.department ∧ pq = labelOf freq endD lg then acc dq pq + 1 else acc dq pq)
        acc) d p
        = acc d p
          + (L.filter (fun lg => lg.department == d && labelOf freq endD lg == p)).length := by
    intro L
    induction L with
    | nil => intro acc; simp
    | cons lg rest ih =>
      intro acc
      rw [List.foldl_cons, List.filter_cons, ih]
      by_cases hcond : lg.department = d ∧ labelOf freq endD lg = p
      · have hb : (lg.department == d && (labelOf freq endD lg == p)) = true := by
          simp [hcond.1, hcond.2]
        have hc : d = lg.department ∧ p = labelOf freq endD lg :=
          ⟨hcond.1.symm, hcond.2.symm⟩
        rw [hb, if_pos hc]
        simp only [List.length_cons, if_true]
        omega
      · have hb : (lg.department == d && (labelOf freq endD lg == p)) = false := by
          rcases not_and_or.mp hcond with h | h <;> simp [h]
        have hc : ¬ (d = lg.department ∧ p = labelOf freq endD lg) := by
          rintro ⟨ha, hb2⟩
          exact hcond ⟨ha.symm, hb2.symm⟩
        rw [hb, if_neg hc]
        simp
  have h0 := aux logs (fun _ _ => 0)
  simpa [chartData] using h0

theorem chartData_eq_count (logs : List DeptLog) (freq : Freq) (endD : Date) (d p : String) :
    chartData logs freq endD d p =
      (((logs.filter (fun lg => lg.department == d)).map (labelOf freq endD)).count p) := by
  rw [chartData_eq]
  rw [List.count_eq_countP, List.countP_map, List.countP_eq_length_filter]
  have hcomm : logs.filter (fun lg => lg.department == d && labelOf freq endD lg == p)
      = logs.filter (fun lg => (labelOf freq endD lg == p) && (lg.department == d)) := by
    apply List.filter_congr
    intro a _
    rw [Bool.and_comm]
  rw [hcomm, ← List.filter_filter]
  rfl

theorem mem_chartPeriods {logs : List DeptLog} {freq : Freq} {endD : Date} {d p : String}
    (hp : p ∈ chartPeriods logs freq endD d) :
    ∃ lg ∈ logs, (lg.department == d) = true ∧ labelOf freq endD lg = p := by
  unfold chartPeriods at hp
  rw [mem_dedupFirst] at hp
  obtain ⟨lg, hlg, rfl⟩ := List.mem_map.mp hp
  have hlg2 := List.mem_filter.mp hlg
  exact ⟨lg, hlg2.1, hlg2.2, rfl⟩

theorem chart_rows_shape {logs : List DeptLog} {s e : Date} {r : String × String × Nat}
    (hr : r ∈ (prepare_chart_data logs s e).1) :
    ∃ d' ∈ departments, ∃ p ∈ chartPeriods logs (freqOf s e) e d',
      r = (d', p, chartData logs (freqOf s e) e d' p) := by
  unfold prepare_chart_data at hr
  simp only at hr
  obtain ⟨block, hblock, hrb⟩ := List.mem_flatten.mp hr
  obtain ⟨d', hd', rfl⟩ := List.mem_map.mp hblock
  obtain ⟨p, hp, rfl⟩ := List.mem_map.mp hrb
  exact ⟨d', hd', p, hp, rfl⟩

/-- C10: the chart data frame emits a `(unit, period, count)` row only for
pairs with count at least 1: a unit with no records in the filtered window
contributes no rows at all, so the fixed-universe zero-row guarantee holds
for the table matrix but not for the chart output built from the same
records. -/
theorem C10_chart_omits_zero_rows (logs : List DeptLog) (s e : Date) :
    (∀ r ∈ (prepare_chart_data logs s e).1, 1 ≤ r.2.2) ∧
    (∀ d : String, (∀ lg ∈ logs, lg.department ≠ d) →
      (∀ r ∈ (prepare_chart_data logs s e).1, r.1 ≠ d) ∧
      (d ∈ departments → (d, (⟨0, []⟩ : Stats)) ∈ deptMatrix logs)) := by
  constructor
  · intro r hr
    obtain ⟨d', hd', p, hp, rfl⟩ := chart_rows_shape hr
    obtain ⟨lg, hlg, hdep, hlab⟩ := mem_chartPeriods hp
    have hmem : lg ∈ logs.filter
        (fun x => x.department == d' && labelOf (freqOf s e) e x == p) := by
      rw [List.mem_filter]
      refine ⟨hlg, ?_⟩
      simp [hdep, hlab]
    have hlen := List.length_pos.mpr (List.ne_nil_of_mem hmem)
    show 1 ≤ chartData logs (freqOf s e) e d' p
    rw [chartData_eq]
    omega
  · intro d hnone
    constructor
    · intro r hr
      obtain ⟨d', hd', p, hp, rfl⟩ := chart_rows_shape hr
      intro hteq
      have hdd : d' = d := hteq
      subst hdd
      obtain ⟨lg, hlg, hdep, -⟩ := mem_chartPeriods hp
      exact hnone lg hlg (by simpa using hdep)
    · intro hd
      exact deptMatrix_zero_row logs d hd hnone

/-- Witness for C10: the two-record example yields a single merged chart row
for Управление 1 with count 2, no rows for Управление 3, and a zero table
row for Управление 3. -/
theorem C10_chart_omits_zero_rows_witness :
    1 ≤ (("Управление 1", "2022", 2) : String × String × Nat).2.2 ∧
    (∀ r ∈ (prepare_chart_data cexLogs ⟨2022, 1, 1⟩ ⟨2023, 6, 30⟩).1,
      r.1 ≠ "Управление 3") ∧
    ("Управление 3", (⟨0, []⟩ : Stats)) ∈ deptMatrix cexLogs :=
  ⟨(C10_chart_omits_zero_rows cexLogs ⟨2022, 1, 1⟩ ⟨2023, 6, 30⟩).1
      ("Управление 1", "2022", 2) (by decide),
   ((C10_chart_omits_zero_rows cexLogs ⟨2022, 1, 1⟩ ⟨2023, 6, 30⟩).2
      "Управление 3" (by decide)).1,
   ((C10_chart_omits_zero_rows cexLogs ⟨2022, 1, 1⟩ ⟨2023, 6, 30⟩).2
      "Управление 3" (by decide)).2 (by decide)⟩

theorem prepare_chart_data_fst (logs : List DeptLog) (s e : Date) :
    (prepare_chart_data logs s e).1 = List.flatten (departments.map (fun d' =>
      (chartPeriods logs (freqOf s e) e d').map
        (fun p => (d', p, chartData logs (freqOf s e) e d' p)))) := rfl

theorem block_filter_self (logs : List DeptLog) (freq : Freq) (endD : Date) (d : String) :
    (((chartPeriods logs freq endD d).map
        (fun p => (d, p, chartData logs freq endD d p))).filter (fun r => r.1 == d))
      = (chartPeriods logs freq endD d).map (fun p => (d, p, chartData logs freq endD d p)) := by
  rw [List.filter_map]
  have hcomp : ((fun r => (r : String × String × Nat).1 == d) ∘
      (fun p => (d, p, chartData logs freq endD d p))) = fun _ => true := by
    funext p
    simp [Function.comp]
  rw [hcomp, List.filter_true]

theorem block_filter_other (logs : List DeptLog) (freq : Freq) (endD : Date)
    {d' d : String} (hne : d' ≠ d) :
    (((chartPeriods logs freq endD d').map
        (fun p => (d', p, chartData logs freq endD d' p))).filter (fun r => r.1 == d))
      = [] := by
  rw [List.filter_map]
  have hcomp : ((fun r => (r : String × String × Nat).1 == d) ∘
      (fun p => (d', p, chartData logs freq endD d' p))) = fun _ => false := by
    funext p
    simp [Function.comp, hne]
  rw [hcomp, List.filter_false]
  rfl

theorem chartRows_filter (logs : List DeptLog) (freq : Freq) (endD : Date) (d : String) :
    ∀ ds : List String, ds.Nodup →
      ((List.flatten (ds.map (fun d' => (chartPeriods logs freq endD d').map
          (fun p => (d', p, chartData logs freq endD d' p))))).filter (fun r => r.1 == d))
        = if d ∈ ds then
            (chartPeriods logs freq endD d).map
              (fun p => (d, p, chartData logs freq endD d p))
          else [] := by
  intro ds
  induction ds with
  | nil => intro _; simp
  | cons d' rest ih =>
    intro hnd
    rw [List.map_cons, List.flatten_cons, List.filter_append, ih hnd.of_cons]
    by_cases hdd : d' = d
    · subst hdd
      rw [block_filter_self]
      have hnm : d' ∉ rest := (List.nodup_cons.mp hnd).1
      rw [if_neg hnm, if_pos (List.mem_cons_self _ _), List.append_nil]
    · rw [block_filter_other logs freq endD hdd, List.nil_append]
      by_cases hmem : d ∈ rest
      · rw [if_pos hmem, if_pos (List.mem_cons_of_mem _ hmem)]
      · rw [if_neg hmem, if_neg (by simp [hmem, Ne.symm hdd])]

theorem chart_sum_dept (logs : List DeptLog) (freq : Freq) (endD : Date) (d : String) :
    ((chartPeriods logs freq endD d).map (fun p => chartData logs freq endD d p)).sum
      = (logs.filter (fun lg => lg.department == d)).length := by
  rw [List.map_congr_left (fun p _ => chartData_eq_count logs freq endD d p)]
  have hM : chartPeriods logs freq endD d
      = dedupFirst ((logs.filter (fun lg => lg.department == d)).map (labelOf freq endD)) :=
    rfl
  rw [hM, sum_counts_dedupFirst]
  simp [List.length_map]

theorem chart_label_value (logs : List DeptLog) (freq : Freq) (endD : Date) (d p : String) :
    chartData logs freq endD d p
      = sumVals ((((dedupFirst (deptKeys logs d)).map
          (fun b => (b, (deptKeys logs d).count b))).filter
            (fun bc => periodLabelYM freq endD bc.1.1 bc.1.2 == p))) := by
  have hL : chartData logs freq endD d p
      = ((deptKeys logs d).filter
          (fun b => periodLabelYM freq endD b.1 b.2 == p)).length := by
    rw [chartData_eq_count, List.count_eq_countP]
    unfold deptKeys
    rw [List.countP_map, ← List.countP_eq_length_filter, List.countP_map]
    rfl
  rw [hL, List.filter_map]
  unfold sumVals
  rw [List.map_map]
  exact filter_length_eq_sum_counts (deptKeys logs d)
    (fun b => periodLabelYM freq endD b.1 b.2 == p)

theorem prepare_employee_data_fst (el : List (String × Stats)) (s e : Date) :
    (prepare_employee_data el s e).1 = List.flatten (el.map (fun q => q.2.months.map
      (fun bc => (q.1, periodLabelYM (freqOf s e) e bc.1.1 bc.1.2, bc.2)))) := rfl

theorem employee_rows_sum (el : List (String × Stats)) (freq : Freq) (endD : Date)
    (name : String) :
    (((List.flatten (el.map (fun q => q.2.months.map
          (fun bc => (q.1, periodLabelYM freq endD bc.1.1 bc.1.2, bc.2))))).filter
        (fun r => r.1 == name)).map (fun r => r.2.2)).sum
      = ((el.filter (fun q => q.1 == name)).map (fun q => sumVals q.2.months)).sum := by
  induction el with
  | nil => simp
  | cons q rest ih =>
    rw [List.map_cons, List.flatten_cons, List.filter_append, List.map_append,
      List.sum_append, ih, List.filter_cons]
    by_cases h : q.1 = name
    · have hb : (q.1 == name) = true := by simp [h]
      rw [hb, List.filter_map]
      have hcomp : ((fun r => (r : String × String × Nat).1 == name) ∘
          (fun bc : (Nat × Nat) × Nat =>
            (q.1, periodLabelYM freq endD bc.1.1 bc.1.2, bc.2))) = fun _ => true := by
        funext bc
        simp [Function.comp, h]
      rw [hcomp, List.filter_true, List.map_map]
      have hcomp2 : ((fun r => (r : String × String × Nat).2.2) ∘
          (fun bc : (Nat × Nat) × Nat =>
            (q.1, periodLabelYM freq endD bc.1.1 bc.1.2, bc.2)))
          = fun bc => (bc : (Nat × Nat) × Nat).2 := rfl
      rw [hcomp2]
      simp [sumVals]
    · have hb : (q.1 == name) = false := by simp [h]
      rw [hb, List.filter_map]
      have hcomp : ((fun r => (r : String × String × Nat).1 == name) ∘
          (fun bc : (Nat × Nat) × Nat =>
            (q.1, periodLabelYM freq endD bc.1.1 bc.1.2, bc.2))) = fun _ => false := by
        funext bc
        simp [Function.comp, h]
      rw [hcomp, List.filter_false]
      simp

/-- C1 (amended): the granularity projection preserves sums but merges
collapsed months into a single labelled entry only on the unit side.  For
the unit chart: per unit, the chart rows carry pairwise-distinct labels,
each row's count is the sum of that unit's raw monthly counts that project
to its label, and the row counts sum to the unit's raw monthly total.  For
the employee chart: one row is emitted per raw monthly bucket (so a
collapsed yearly label can appear in several rows of one employee), and per
employee the row counts still sum to the raw monthly counts. -/
theorem C1_projection_amended (logs : List DeptLog) (el : List (String × Stats))
    (s e : Date) (hfreq : freqOf s e = Freq.year) :
    (∀ d st, (d, st) ∈ deptMatrix logs →
      ((((prepare_chart_data logs s e).1.filter (fun r => r.1 == d)).map
          (fun r => r.2.2)).sum = sumVals st.months) ∧
      ((((prepare_chart_data logs s e).1.filter (fun r => r.1 == d)).map
          (fun r => r.2.1)).Nodup) ∧
      (∀ p c, (d, p, c) ∈ (prepare_chart_data logs s e).1 →
        c = sumVals (st.months.filter
          (fun bc => periodLabelYM (freqOf s e) e bc.1.1 bc.1.2 == p)))) ∧
    (∀ name : String,
      (((prepare_employee_data el s e).1.filter (fun r => r.1 == name)).map
          (fun r => r.2.2)).sum
        = ((el.filter (fun q => q.1 == name)).map (fun q => sumVals q.2.months)).sum) := by
  constructor
  · intro d st hmem
    rw [deptMatrix_char] at hmem
    obtain ⟨d0, hd0, heq⟩ := List.mem_map.mp hmem
    rw [Prod.mk.injEq] at heq
    obtain ⟨rfl, hst⟩ := heq
    subst hst
    have hfilter := chartRows_filter logs (freqOf s e) e d0 departments (by decide)
    rw [if_pos hd0] at hfilter
    rw [prepare_chart_data_fst, hfilter]
    refine ⟨?_, ?_, ?_⟩
    · rw [List.map_map]
      have hcomp : ((fun r => (r : String × String × Nat).2.2) ∘
          (fun p => (d0, p, chartData logs (freqOf s e) e d0 p)))
          = fun p => chartData logs (freqOf s e) e d0 p := rfl
      rw [hcomp, chart_sum_dept, sumVals_counts]
      simp [deptKeys]
    · rw [List.map_map]
      have hcomp : ((fun r => (r : String × String × Nat).2.1) ∘
          (fun p => (d0, p, chartData logs (freqOf s e) e d0 p))) = id := rfl
      rw [hcomp, List.map_id]
      exact nodup_dedupFirst _
    · intro p c hrow
      obtain ⟨d', hd', p', hp', heq2⟩ := chart_rows_shape
        (show ((d0, p, c) : String × String × Nat) ∈ (prepare_chart_data logs s e).1 from hrow)
      rw [Prod.mk.injEq, Prod.mk.injEq] at heq2
      obtain ⟨rfl, rfl, rfl⟩ := heq2
      exact chart_label_value logs (freqOf s e) e d0 p
  · intro name
    rw [prepare_employee_data_fst]
    exact employee_rows_sum el (freqOf s e) e name

/-- Witness for C1 (amended) on the concrete two-record example: the unit
chart row counts sum to the unit's raw monthly total, and the employee rows
of "E" sum to the raw monthly counts. -/
theorem C1_projection_amended_witness :
    ((((prepare_chart_data cexLogs ⟨2022, 1, 1⟩ ⟨2023, 6, 30⟩).1.filter
        (fun r => r.1 == "Управление 1")).map (fun r => r.2.2)).sum
      = sumVals ((⟨2, [((2022, 1), 1), ((2022, 2), 1)]⟩ : Stats)).months) ∧
    ((((prepare_employee_data (employeeMatrix cexLogs) ⟨2022, 1, 1⟩ ⟨2023, 6, 30⟩).1.filter
        (fun r => r.1 == "E")).map (fun r => r.2.2)).sum
      = (((employeeMatrix cexLogs).filter (fun q => q.1 == "E")).map
          (fun q => sumVals q.2.months)).sum) :=
  ⟨((C1_projection_amended cexLogs (employeeMatrix cexLogs) ⟨2022, 1, 1⟩ ⟨2023, 6, 30⟩
      (by decide)).1 "Управление 1" ⟨2, [((2022, 1), 1), ((2022, 2), 1)]⟩ (by decide)).1,
   (C1_projection_amended cexLogs (employeeMatrix cexLogs) ⟨2022, 1, 1⟩ ⟨2023, 6, 30⟩
      (by decide)).2 "E"⟩

/-- C1 counterexample: at yearly granularity the employee projection does
not merge collapsed months into a single entry: employee "E" has two raw
monthly buckets of 2022 (1 visit each), both labelled "2022", and
`prepare_employee_data` emits two separate rows with that label (instead of
one row with value 2), so the labels of the emitted rows are not
pairwise-distinct. -/
theorem C1_projection_counterexample :
    freqOf ⟨2022, 1, 1⟩ ⟨2023, 6, 30⟩ = Freq.year ∧
    employeeMatrix cexLogs = [("E", ⟨2, [((2022, 1), 1), ((2022, 2), 1)]⟩)] ∧
    (prepare_employee_data (employeeMatrix cexLogs) ⟨2022, 1, 1⟩ ⟨2023, 6, 30⟩).1
      = [("E", "2022", 1), ("E", "2022", 1)] ∧
    ¬ (((prepare_employee_data (employeeMatrix cexLogs) ⟨2022, 1, 1⟩ ⟨2023, 6, 30⟩).1.map
        (fun r => r.2.1)).Nodup) :=
  ⟨by decide, by decide, by decide, by decide⟩

/-! ### C8: inverted ranges -/

theorem not_between_of_inverted {s e d : Date} (h : dateLt e s) :
    ¬ (dateLe s d ∧ dateLe d e) := by
  simp only [dateLt, dateLe] at *
  omega

theorem filterRange_inverted (logs : List DeptLog) {s e : Date} (h : dateLt e s) :
    filterRange logs s e = [] := by
  unfold filterRange
  rw [List.filter_eq_nil_iff]
  intro lg _
  simp only [Bool.and_eq_true, decide_eq_true_eq]
  exact not_between_of_inverted h

theorem monthRangeAux_stop {ey em : Nat} {p : Nat × Nat} (h : ¬ monthLE p (ey, em)) :
    ∀ fuel, monthRangeAux ey em fuel p = [] := by
  intro fuel
  cases fuel with
  | zero => rfl
  | succ f => simp [monthRangeAux, h]

theorem monthRangeAux_single (y m : Nat) : monthRangeAux y m 2 (y, m) = [(y, m)] := by
  have h1 : monthLE (y, m) (y, m) := Or.inr ⟨rfl, le_refl m⟩
  have h2 : ¬ monthLE (nextMonth (y, m)) (y, m) := by
    unfold nextMonth monthLE
    by_cases h12 : m ≥ 12
    · simp [h12]
    · simp only [if_neg h12]
      omega
  simp [monthRangeAux, h1, h2]

/-- C8 (amended): for every inverted range (`start_date > end_date`) no
record passes the inclusive date filter, so the unit matrix keeps all totals
at 0 and the employee matrix is empty, and nothing raises an error; the
enumerated bucket list is empty exactly when the inversion crosses a month
boundary — when start and end fall in the same calendar month the list
holds that single month instead of being empty. -/
theorem C8_inverted_range_amended (parsed : List ParsedLog) (s e : Date)
    (h : dateLt e s) :
    filterRange (assign_departments_to_logs parsed) s e = [] ∧
    deptMatrix (filterRange (assign_departments_to_logs parsed) s e)
      = departments.map (fun d => (d, (⟨0, []⟩ : Stats))) ∧
    employeeMatrix (filterRange (assign_departments_to_logs parsed) s e) = [] ∧
    ((s.year, s.month) ≠ (e.year, e.month) → get_month_range s e = []) ∧
    ((s.year, s.month) = (e.year, e.month) →
      get_month_range s e = [(s.year, s.month)]) := by
  have hf := filterRange_inverted (assign_departments_to_logs parsed) h
  refine ⟨hf, by rw [hf]; rfl, by rw [hf]; rfl, ?_, ?_⟩
  · intro hne
    have hpair : s.year ≠ e.year ∨ s.month ≠ e.month := by
      by_contra hc
      push_neg at hc
      exact hne (by rw [hc.1, hc.2])
    have hmonth : ¬ monthLE (s.year, s.month) (e.year, e.month) := by
      simp only [dateLt] at h
      show ¬ (s.year < e.year ∨ (s.year = e.year ∧ s.month ≤ e.month))
      rcases hpair with hp | hp <;> omega
    unfold get_month_range
    rw [monthRangeAux_stop hmonth]
    rfl
  · intro heq
    rw [Prod.mk.injEq] at heq
    obtain ⟨h1, h2⟩ := heq
    unfold get_month_range
    rw [← h1, ← h2]
    have hfuel : s.year * 12 + s.month + 2 - (s.year * 12 + s.month) = 2 := by omega
    rw [hfuel, monthRangeAux_single]
    rfl

/-- C8 counterexample: for `start = 2024-05-20 > end = 2024-05-10` the
enumerated bucket list is `[(2024, 5)]`, not empty, refuting the claim that
every inverted range yields an empty bucket list. -/
theorem C8_inverted_range_counterexample :
    dateLt ⟨2024, 5, 10⟩ ⟨2024, 5, 20⟩ ∧
    get_month_range ⟨2024, 5, 20⟩ ⟨2024, 5, 10⟩ = [(2024, 5)] ∧
    get_month_range ⟨2024, 5, 20⟩ ⟨2024, 5, 10⟩ ≠ [] := by
  refine ⟨by decide, by decide, by decide⟩

/-- Witness for C8 (amended) at concrete inverted ranges: a month-crossing
inversion gives an empty bucket list and an empty filter result; a
same-month inversion gives the single shared month. -/
theorem C8_inverted_range_amended_witness :
    filterRange (assign_departments_to_logs (process_logs [lineEx])) ⟨2024, 6, 20⟩
        ⟨2024, 5, 10⟩ = [] ∧
    get_month_range ⟨2024, 6, 20⟩ ⟨2024, 5, 10⟩ = [] ∧
    get_month_range ⟨2024, 5, 20⟩ ⟨2024, 5, 10⟩ = [(2024, 5)] :=
  ⟨(C8_inverted_range_amended (process_logs [lineEx]) ⟨2024, 6, 20⟩ ⟨2024, 5, 10⟩
      (by decide)).1,
   (C8_inverted_range_amended (process_logs [lineEx]) ⟨2024, 6, 20⟩ ⟨2024, 5, 10⟩
      (by decide)).2.2.2.1 (by decide),
   (C8_inverted_range_amended (process_logs [lineEx]) ⟨2024, 5, 20⟩ ⟨2024, 5, 10⟩
      (by decide)).2.2.2.2 (by decide)⟩
